import Mathlib

/-!
Verification of the multi-tenant tag identity core of `sq9mev/django-taggit`
(`taggit/models.py`, `taggit/admin.py`) against its specification.

The Django models are shallowly embedded: a `Store` holds the persisted `Tag`
rows, the tag-to-object associations (`TaggedItem` rows) and the tagged
objects with their optional site ("tenant") membership.  Each operation of the
source (`TagBase.clean`, `Tag.save` with its savepoint retry loop,
`TagBase.delete`, `TagAdmin.save_form`, `TagAdmin.save_related`,
`GenericTaggedItemBase.tags_for`) becomes an explicit state-passing function
on `Store`.  Django's external `default_slugify` template filter is a
parameter `f : String → String` of every operation that uses it.
-/

set_option maxRecDepth 8192

namespace Taggit

/-! ### Decimal rendering (the `"%d"` format used by `TagBase.slugify`) -/

/-- Decimal digit character for a digit `d < 10`. -/
def digitChar (d : Nat) : Char := Char.ofNat (48 + d)

/-- Big-endian decimal digit list of `n`, accumulator style; any
`fuel > n` suffices for full rendering. -/
def decDigitsAux : Nat → Nat → List Char → List Char
  | 0, _, acc => acc
  | fuel+1, n, acc =>
    if n < 10 then digitChar n :: acc
    else decDigitsAux fuel (n / 10) (digitChar (n % 10) :: acc)

/-- Big-endian decimal digit list of `n`. -/
def decDigits (n : Nat) : List Char := decDigitsAux (n + 1) n []

/-- Decimal rendering of a natural number, i.e. Python's `"%d" % n`. -/
def natToDec (n : Nat) : String := ⟨decDigits n⟩

/-! ### `TagBase.slugify` (models.py lines 88-92)

`slug = default_slugify(tag); if i is not None: slug += "_%d" % i`.
The external Django filter `default_slugify` is the parameter `f`. -/

def tagSlugify (f : String → String) (tag : String) (i : Option Nat) : String :=
  match i with
  | none => f tag
  | some i => f tag ++ "_" ++ natToDec i

/-- The `k`-th candidate slug tried by the retry loop in `TagBase.save`:
the plain `slugify(name)` first, then `slugify(name, 1)`, `slugify(name, 2)`, … -/
def candidate (f : String → String) (name : String) : Nat → String
  | 0 => tagSlugify f name none
  | k+1 => tagSlugify f name (some (k+1))

/-! ### Data model -/

/-- A persisted `Tag` row (models.py `TagBase` + `Tag`): primary key, display
name, derived namespace (field `nspace` here, `namespace` being reserved in
Lean), globally unique slug, and the M2M set of site ids (`MultiSiteField`).
Sites play the role the specification calls tenants. -/
structure Tag where
  pk : Nat
  name : String
  nspace : String
  slug : String
  sites : List Nat
deriving DecidableEq

/-- A tagged object as seen through the content-type dispatch: its content
type, its id, and — when its model has a `sites` attribute — its own site
membership (`none` models `hasattr(obj, "sites") == False`). -/
structure TObject where
  ctype : Nat
  oid : Nat
  sites : Option (List Nat)
deriving DecidableEq

/-- A `TaggedItem` row (`GenericTaggedItemBase`): one association between a
tag and one object of some content type. -/
structure TaggedItem where
  tag_pk : Nat
  ctype : Nat
  object_id : Nat
deriving DecidableEq

/-- The storage backend: tag rows, association rows, tagged objects, and the
auto-increment primary-key counter. -/
structure Store where
  tags : List Tag
  items : List TaggedItem
  objects : List TObject
  nextPk : Nat
deriving DecidableEq

/-- The characters strictly before the first `':'`, or `none` when no `':'`
occurs — the first two components of Python's `str.partition(":")`. -/
def beforeColon : List Char → Option (List Char)
  | [] => none
  | c :: cs => if c = ':' then some [] else (beforeColon cs).map (c :: ·)

/-- Derivation of `Tag.namespace` (models.py:103):
`name.partition(":")[0] if name.partition(":")[1] == ":" else ""`. -/
def computeNamespace (name : String) : String :=
  match beforeColon name.data with
  | some l => ⟨l⟩
  | none => ""

/-- The DB unique constraint on `TagBase.slug`: does a row already hold it? -/
def slugTaken (tags : List Tag) (slug : String) : Bool :=
  tags.any (fun t => t.slug == slug)

/-- An in-memory `Tag` instance: `pk` is `none` until the row is persisted
(or until `clean` adopts an existing row's pk); `slug = ""` models a falsy
unset slug. -/
structure TagInstance where
  pk : Option Nat
  name : String
  slug : String
deriving DecidableEq

/-! ### `TagBase.clean` and `Tag.save` -/

/-- `TagBase.clean` (models.py:30-39): on an instance with no primary key,
look up an existing row with the exact same `(name, slug)` pair system-wide
(`Tag.objects`, not the site-scoped manager) and, if found, adopt its
primary key so the subsequent save updates that row instead of inserting. -/
def clean (s : Store) (t : TagInstance) : TagInstance :=
  match t.pk with
  | some _ => t
  | none =>
    match s.tags.find? (fun tg => tg.name == t.name && tg.slug == t.slug) with
    | some tg => { t with pk := some tg.pk }
    | none => t

/-- Result of a save: the new store plus the row written, an
`IntegrityError` escaping to the caller, or exhausted fuel.  The source's
retry loop is `while True`; `fuelOut` only models calling the embedding with
too little fuel and is unreachable for sufficient fuel
(`saveT_fresh_terminates`). -/
inductive SaveResult where
  | ok (s : Store) (t : Tag)
  | integrityError
  | fuelOut
deriving DecidableEq

/-- The row written by an INSERT for instance values `(name, slug)`
(`Tag.save` recomputes the namespace from `name` first, models.py:102-104);
a fresh row starts with no sites. -/
def freshRow (pk : Nat) (name slug : String) : Tag :=
  ⟨pk, name, computeNamespace name, slug, []⟩

/-- The savepoint retry loop of `TagBase.save` (models.py:55-65): attempt an
INSERT with the current candidate slug inside a savepoint; when the unique
constraint fires, roll back that savepoint only — the surrounding store is
untouched — and retry with the next suffixed candidate.  At the attempt with
counter `i` the candidate is `candidate f name i`; the first call passes
`i = 0` and the unsuffixed `slugify(name)`. -/
def saveLoop (f : String → String) (s : Store) (name : String) :
    Nat → Nat → String → SaveResult
  | 0, _, _ => .fuelOut
  | fuel+1, i, slug =>
    if slugTaken s.tags slug then
      saveLoop f s name fuel (i+1) (tagSlugify f name (some (i+1)))
    else
      .ok { s with tags := s.tags ++ [freshRow s.nextPk name slug],
                   nextPk := s.nextPk + 1 }
          (freshRow s.nextPk name slug)

/-- The plain branch of `TagBase.save` (models.py:66-67, through Django's
pre-1.6 `Model.save_base`): with a primary key, SELECT the row — UPDATE it
when present (the unique constraint still guards the slug against other
rows), INSERT under that pk when absent (the reversion-restore path); with
no pk but a preset slug, one plain INSERT.  A unique-constraint violation
propagates as `IntegrityError` — nothing catches it here. -/
def savePlain (s : Store) (t : TagInstance) : SaveResult :=
  match t.pk with
  | some p =>
    match s.tags.find? (fun tg => tg.pk == p) with
    | some tg0 =>
      if s.tags.any (fun tg => tg.slug == t.slug && tg.pk != p) then
        .integrityError
      else
        .ok { s with tags := s.tags.map (fun tg =>
                if tg.pk == p then
                  { tg with name := t.name, nspace := computeNamespace t.name,
                            slug := t.slug }
                else tg) }
            { tg0 with name := t.name, nspace := computeNamespace t.name,
                       slug := t.slug }
    | none =>
      if slugTaken s.tags t.slug then .integrityError
      else
        .ok { s with tags := s.tags ++ [freshRow p t.name t.slug],
                     nextPk := max s.nextPk (p + 1) }
            (freshRow p t.name t.slug)
  | none =>
    if slugTaken s.tags t.slug then .integrityError
    else
      .ok { s with tags := s.tags ++ [freshRow s.nextPk t.name t.slug],
                   nextPk := s.nextPk + 1 }
          (freshRow s.nextPk t.name t.slug)

/-- `Tag.save` (models.py:41-67 and 102-104): for a fresh instance with no
slug, run the slug-allocation retry loop starting from the unsuffixed
`slugify(name)`; in every other case perform exactly one plain write. -/
def saveT (f : String → String) (s : Store) (t : TagInstance) (fuel : Nat) :
    SaveResult :=
  if t.pk == none && t.slug == "" then
    saveLoop f s t.name fuel 0 (tagSlugify f t.name none)
  else savePlain s t

/-! ### `TagBase.delete` -/

/-- `item.content_object`, resolved through the content-type dispatch. -/
def objLookup (objects : List TObject) (ctype oid : Nat) : Option TObject :=
  objects.find? (fun o => o.ctype == ctype && o.oid == oid)

/-- The orphan test of models.py:78-79: the item's object exists, has a
`sites` attribute, and none of its sites is among `keep`. -/
def orphaned (objects : List TObject) (keep : List Nat) (it : TaggedItem) : Bool :=
  match objLookup objects it.ctype it.object_id with
  | some obj =>
    match obj.sites with
    | some osites => osites.all (fun x => !keep.contains x)
    | none => false
  | none => false

/-- One sweep of models.py:76-80: delete every association of tag `pk`
whose object is orphaned with respect to `keep`. -/
def sweepOrphans (s : Store) (pk : Nat) (keep : List Nat) : Store :=
  { s with
    items := s.items.filter
      (fun it => !(it.tag_pk == pk && orphaned s.objects keep it)) }

/-- `self.sites.remove(site)` on the row of tag `pk`. -/
def removeSiteFromTag (s : Store) (pk site : Nat) : Store :=
  { s with tags := s.tags.map (fun t =>
      if t.pk == pk then { t with sites := t.sites.filter (fun x => !(x == site)) }
      else t) }

/-- `sites.add(site)` on the row of tag `pk` (M2M add: no-op when already
present). -/
def addSiteToTag (s : Store) (pk site : Nat) : Store :=
  { s with tags := s.tags.map (fun t =>
      if t.pk == pk then
        (if t.sites.contains site then t else { t with sites := t.sites ++ [site] })
      else t) }

/-- `TagBase.delete(sites)` (models.py:69-86): compute the sites to keep; if
any survive, walk the tag's current sites and, for each one being dropped,
sweep the now-orphaned associations and detach the site; if none survive,
delete the row itself, cascading all of its associations. -/
def tagDelete (s : Store) (pk : Nat) (rm : List Nat) : Store :=
  match s.tags.find? (fun t => t.pk == pk) with
  | none => s
  | some tg =>
    let keep := tg.sites.filter (fun site => !rm.contains site)
    if 0 < keep.length then
      tg.sites.foldl (fun acc site =>
        if !keep.contains site then
          removeSiteFromTag (sweepOrphans acc pk keep) pk site
        else acc) s
    else
      { s with tags := s.tags.filter (fun t => !(t.pk == pk)),
               items := s.items.filter (fun it => !(it.tag_pk == pk)) }

/-! ### `TagAdmin` (admin.py) -/

/-- `TagAdmin.save_related` (admin.py:126-138): union the newly selected
sites onto the tag; then, only on a change view, drop the deselected sites
the acting user controls, through `TagBase.delete`. -/
def save_related (s : Store) (pk : Nat) (user_sites new_sites : List Nat)
    (change : Bool) : Store :=
  match s.tags.find? (fun t => t.pk == pk) with
  | none => s
  | some obj =>
    let original := obj.sites
    let sites_to_remove := original.filter
      (fun x => user_sites.contains x && !new_sites.contains x)
    let sites_to_add := new_sites.filter (fun x => !original.contains x)
    let s1 := sites_to_add.foldl (fun acc site => addSiteToTag acc pk site) s
    if change then tagDelete s1 pk sites_to_remove else s1

/-- Outcome of `TagAdmin.save_form`: the form instance is handed on for
`save_model` to write (`deferred`), or the split already ran (`split`
carries the store after the split and the new tag), or the INSERT of the
split's new tag raised. -/
inductive FormStep where
  | deferred (t : TagInstance) (s : Store)
  | split (s : Store) (newTag : Tag)
  | error
deriving DecidableEq

/-- admin.py:104-106: for each edited site, detach it from the original tag
and attach it to the new one. -/
def transferSites (s : Store) (origPk newPk : Nat) (new_sites : List Nat) :
    Store :=
  new_sites.foldl (fun acc site =>
    addSiteToTag (removeSiteFromTag acc origPk site) newPk site) s

/-- One iteration of the item sweep in admin.py:110-117, acting on the
association list: an object whose sites lie wholly inside the edited sites
loses its old association `it` (`item.delete()`); an object whose sites
overlap the edited sites gains an association with the new tag
(`tags.add`, a no-op when it already exists).  Objects with no `sites`
attribute, or no longer resolvable, are skipped. -/
def splitSweepItems (newPk : Nat) (new_sites : List Nat)
    (objects : List TObject) (items : List TaggedItem) (it : TaggedItem) :
    List TaggedItem :=
  match objLookup objects it.ctype it.object_id with
  | none => items
  | some obj =>
    match obj.sites with
    | none => items
    | some osites =>
      let items1 :=
        if osites.all (fun x => new_sites.contains x) then
          items.filter (fun j => !(j == it))
        else items
      if osites.any (fun x => new_sites.contains x) then
        if items1.contains ⟨newPk, it.ctype, it.object_id⟩ then items1
        else items1 ++ [⟨newPk, it.ctype, it.object_id⟩]
      else items1

/-- admin.py:108-117: walk the snapshot of the original tag's associations,
applying the per-item sweep to the store's association list. -/
def splitSweep (s : Store) (origPk newPk : Nat) (new_sites : List Nat) : Store :=
  (s.items.filter (fun it => it.tag_pk == origPk)).foldl
    (fun acc it =>
      { acc with
        items := splitSweepItems newPk new_sites acc.objects acc.items it })
    s

/-- `TagAdmin.save_form` (admin.py:77-124).  `t` carries the form's edited
name/slug (and, on a change view, the instance pk); `new_sites` is the
form's cleaned site selection.  The `DoesNotExist` branch (restoring with
reversion) and the unchanged-name branch both fall through to a plain
deferred save. -/
def save_form (f : String → String) (s : Store) (t : TagInstance)
    (new_sites : List Nat) (fuel : Nat) : FormStep :=
  match t.pk with
  | none => .deferred t s
  | some pk =>
    match s.tags.find? (fun tg => tg.pk == pk) with
    | none => .deferred t s
    | some original =>
      if t.name == original.name && t.slug == original.slug then .deferred t s
      else if original.sites.all (fun st => new_sites.contains st) then
        .deferred t s
      else
        match saveT f s ⟨none, t.name, t.slug⟩ fuel with
        | .ok s1 newTag =>
          let s2 := transferSites s1 pk newTag.pk new_sites
          .split (splitSweep s2 pk newTag.pk new_sites) newTag
        | _ => .error

/-- The admin save pipeline of one request: `save_form`, then `save_model`
(which calls `.save()` on the returned instance), then `save_related`. -/
def adminSaveTag (f : String → String) (s : Store) (t : TagInstance)
    (user_sites new_sites : List Nat) (change : Bool) (fuel : Nat) :
    Option Store :=
  match save_form f s t new_sites fuel with
  | .deferred t1 s1 =>
    match saveT f s1 t1 fuel with
    | .ok s2 tag => some (save_related s2 tag.pk user_sites new_sites change)
    | _ => none
  | .split s1 newTag =>
    match saveT f s1 ⟨some newTag.pk, newTag.name, newTag.slug⟩ fuel with
    | .ok s2 tag => some (save_related s2 tag.pk user_sites new_sites change)
    | _ => none
  | .error => none

/-- Creating a tag through the admin add view: form validation runs
`TagBase.clean` (identity resolution), then the pipeline with
`change = False`. -/
def adminCreateTag (f : String → String) (s : Store) (name slug : String)
    (user_sites new_sites : List Nat) (fuel : Nat) : Option Store :=
  adminSaveTag f s (clean s ⟨none, name, slug⟩) user_sites new_sites false fuel

/-- Editing tag `pk` through the admin change view (the rename flow): the
form instance carries the edited name/slug; `clean` no-ops on a persisted
pk. -/
def adminRenameTag (f : String → String) (s : Store) (pk : Nat)
    (newName newSlug : String) (user_sites new_sites : List Nat) (fuel : Nat) :
    Option Store :=
  adminSaveTag f s (clean s ⟨some pk, newName, newSlug⟩) user_sites new_sites
    true fuel

/-! ### `tags_for` -/

/-- `GenericTaggedItemBase.tags_for` (models.py:198-213), the variant the
concrete `TaggedItem` inherits: the distinct tags having an association of
content type `ct` (and of the given instance, when one is supplied), built
on the plain all-sites `Tag.objects` manager.  The prefetch-cache fast path
of lines 205-211 is a guarded optimization and is not modeled. -/
def tags_for (s : Store) (ct : Nat) (inst : Option Nat) : List Tag :=
  s.tags.filter (fun tg => s.items.any (fun it =>
    it.tag_pk == tg.pk && it.ctype == ct &&
      (match inst with
       | some oid => it.object_id == oid
       | none => true)))

/-! ### Storage well-formedness -/

/-- Well-formed storage: unique primary keys, the DB-enforced unique slugs,
unique association rows, pk references below the pk counter, and unique
object identities. -/
def Store.wf (s : Store) : Prop :=
  (s.tags.map Tag.pk).Nodup ∧ (s.tags.map Tag.slug).Nodup ∧
  s.items.Nodup ∧
  (∀ t ∈ s.tags, t.pk < s.nextPk) ∧
  (∀ it ∈ s.items, it.tag_pk < s.nextPk) ∧
  (s.objects.map (fun o => (o.ctype, o.oid))).Nodup

instance (s : Store) : Decidable s.wf := by
  unfold Store.wf; infer_instance

/-! ### Derived forms used to characterize the operations -/

/-- Updating the row of primary key `p` in place. -/
def updRow (u : Tag → Tag) (p : Nat) (s : Store) : Store :=
  { s with tags := s.tags.map (fun t => if t.pk == p then u t else t) }

/-- Accumulated result of repeated M2M `sites.add` calls. -/
def addAllSites (sites : List Nat) (l : List Nat) : List Nat :=
  l.foldl (fun ss x => if ss.contains x then ss else ss ++ [x]) sites

/-- Sequential `sites.remove` of every iteration site not in `keep`,
starting from `v` (the per-row effect of the removal loop on a tag's site
list). -/
def removeSites (keep : List Nat) (l : List Nat) (v : List Nat) : List Nat :=
  l.foldl (fun ss site =>
    if !keep.contains site then ss.filter (fun x => !(x == site)) else ss) v

/-- 1001 rows whose slugs are exactly the first 1001 slug candidates for the
name "a" (under the identity transliteration), forcing 1001 straight
collisions on a fresh save of "a". -/
def collisionStore : Store :=
  ⟨(List.range 1001).map
      (fun i => ⟨i, "a", "", candidate (fun x => x) "a" i, []⟩),
   [], [], 1001⟩

/-! ### Decimal rendering and slug-candidate facts -/

theorem decDigitsAux_fuel {f₁ f₂ n : Nat} (acc : List Char)
    (h₁ : n < f₁) (h₂ : n < f₂) :
    decDigitsAux f₁ n acc = decDigitsAux f₂ n acc := by
  induction f₁ generalizing f₂ n acc with
  | zero => omega
  | succ f₁ ih =>
    cases f₂ with
    | zero => omega
    | succ f₂ =>
      simp only [decDigitsAux]
      by_cases h : n < 10
      · simp [h]
      · simp only [if_neg h]
        exact ih _ (by omega) (by omega)

theorem decDigitsAux_acc {fuel n : Nat} (acc : List Char) (h : n < fuel) :
    decDigitsAux fuel n acc = decDigitsAux fuel n [] ++ acc := by
  induction fuel generalizing n acc with
  | zero => omega
  | succ fuel ih =>
    simp only [decDigitsAux]
    by_cases h10 : n < 10
    · simp [h10]
    · simp only [if_neg h10]
      have hlt : n / 10 < fuel := by omega
      rw [ih _ hlt, ih (digitChar (n % 10) :: []) hlt, List.append_assoc]
      rfl

theorem decDigits_eq (n : Nat) :
    decDigits n =
      if n < 10 then [digitChar n]
      else decDigits (n / 10) ++ [digitChar (n % 10)] := by
  by_cases h : n < 10
  · simp [decDigits, decDigitsAux, h]
  · rw [if_neg h]
    have step : decDigits n = decDigitsAux n (n / 10) [digitChar (n % 10)] := by
      simp [decDigits, decDigitsAux, h]
    rw [step, decDigitsAux_acc _ (by omega),
      decDigitsAux_fuel ([] : List Char) (by omega) (Nat.lt_succ_self _)]
    rfl

theorem decDigits_ne_nil (n : Nat) : decDigits n ≠ [] := by
  rw [decDigits_eq]
  by_cases h : n < 10 <;> simp [h]

theorem digitChar_inj {a b : Nat} (ha : a < 10) (hb : b < 10)
    (h : digitChar a = digitChar b) : a = b := by
  interval_cases a <;> interval_cases b <;> revert h <;> decide

theorem decDigits_inj : ∀ {m n : Nat}, decDigits m = decDigits n → m = n := by
  intro m
  induction m using Nat.strong_induction_on with
  | _ m ih =>
    intro n h
    rw [decDigits_eq m, decDigits_eq n] at h
    by_cases hm : m < 10 <;> by_cases hn : n < 10
    · simp only [if_pos hm, if_pos hn, List.cons.injEq] at h
      exact digitChar_inj hm hn h.1
    · exfalso
      simp only [if_pos hm, if_neg hn] at h
      have := congrArg List.length h
      simp only [List.length_cons, List.length_nil, List.length_append] at this
      have hne := decDigits_ne_nil (n / 10)
      cases hd : decDigits (n / 10) with
      | nil => exact hne hd
      | cons a l => rw [hd] at this; simp only [List.length_cons] at this; omega
    · exfalso
      simp only [if_neg hm, if_pos hn] at h
      have := congrArg List.length h
      simp only [List.length_cons, List.length_nil, List.length_append] at this
      have hne := decDigits_ne_nil (m / 10)
      cases hd : decDigits (m / 10) with
      | nil => exact hne hd
      | cons a l => rw [hd] at this; simp only [List.length_cons] at this; omega
    · simp only [if_neg hm, if_neg hn] at h
      obtain ⟨h1, h2⟩ := List.append_inj' h (by simp)
      have hdiv : m / 10 = n / 10 :=
        ih (m / 10) (Nat.div_lt_self (by omega) (by omega)) h1
      have hmod : m % 10 = n % 10 := by
        have := List.cons.inj h2
        exact digitChar_inj (Nat.mod_lt _ (by omega)) (Nat.mod_lt _ (by omega)) this.1
      omega

theorem natToDec_inj {m n : Nat} (h : natToDec m = natToDec n) : m = n := by
  apply decDigits_inj
  simpa [natToDec, String.ext_iff] using h

/-! ### Strings: small helper facts -/

theorem string_data_append (a b : String) : (a ++ b).data = a.data ++ b.data := rfl

theorem string_append_right_inj {p a b : String} (h : p ++ a = p ++ b) : a = b := by
  have := congrArg String.data h
  rw [string_data_append, string_data_append] at this
  exact String.ext (List.append_cancel_left this)

theorem string_length_append (a b : String) :
    (a ++ b).length = a.length + b.length := by
  show (a ++ b).data.length = a.data.length + b.data.length
  rw [string_data_append, List.length_append]

theorem candidate_length_lt (f : String → String) (name : String) (k : Nat) :
    (candidate f name 0).length < (candidate f name (k+1)).length := by
  show (f name).length < (f name ++ "_" ++ natToDec (k+1)).length
  rw [string_length_append, string_length_append]
  have h1 : ("_" : String).length = 1 := rfl
  have h2 : (natToDec (k+1)).length ≠ 0 := by
    show (decDigits (k+1)).length ≠ 0
    intro hl
    exact decDigits_ne_nil _ (List.length_eq_zero.mp hl)
  omega

theorem candidate_inj (f : String → String) (name : String) :
    Function.Injective (candidate f name) := by
  intro i j h
  match i, j with
  | 0, 0 => rfl
  | 0, j+1 =>
    exact absurd (congrArg String.length h)
      (Nat.ne_of_lt (candidate_length_lt f name j))
  | i+1, 0 =>
    exact absurd (congrArg String.length h.symm)
      (Nat.ne_of_lt (candidate_length_lt f name i))
  | i+1, j+1 =>
    simp only [candidate, tagSlugify] at h
    rw [String.append_assoc, String.append_assoc] at h
    have := string_append_right_inj h
    have := string_append_right_inj this
    have := natToDec_inj this
    omega

/-! ### Generic list and store lemmas -/

theorem list_find?_eq_some_of_unique {α : Type} {l : List α} {p : α → Bool}
    {a : α} (ha : a ∈ l) (hpa : p a = true)
    (huniq : ∀ b ∈ l, p b = true → b = a) : l.find? p = some a := by
  induction l with
  | nil => cases ha
  | cons x xs ih =>
    by_cases hx : p x = true
    · have hxa : x = a := huniq x (List.mem_cons_self x xs) hx
      subst hxa
      simp [List.find?_cons, hx]
    · have hx2 : p x = false := by revert hx; cases p x <;> simp
      have hxa : x ≠ a := fun h => hx (h ▸ hpa)
      have ha2 : a ∈ xs := by
        rcases List.mem_cons.mp ha with h | h
        · exact absurd h.symm hxa
        · exact h
      simp only [List.find?_cons, hx2]
      exact ih ha2 (fun b hb hpb => huniq b (List.mem_cons_of_mem x hb) hpb)

theorem tag_eq_of_pk_eq {l : List Tag} (h : (l.map Tag.pk).Nodup)
    {a b : Tag} (ha : a ∈ l) (hb : b ∈ l) (hab : a.pk = b.pk) : a = b :=
  List.inj_on_of_nodup_map h ha hb hab

theorem tag_eq_of_slug_eq {l : List Tag} (h : (l.map Tag.slug).Nodup)
    {a b : Tag} (ha : a ∈ l) (hb : b ∈ l) (hab : a.slug = b.slug) : a = b :=
  List.inj_on_of_nodup_map h ha hb hab

theorem find?_pk_eq {l : List Tag} (hw : (l.map Tag.pk).Nodup) {tg : Tag}
    (htg : tg ∈ l) {p : Nat} (hp : tg.pk = p) :
    l.find? (fun t => t.pk == p) = some tg :=
  list_find?_eq_some_of_unique htg (by simp [hp]) (fun b hb hpb =>
    tag_eq_of_pk_eq hw hb htg (by simp at hpb; omega))

theorem find?_name_slug_eq {l : List Tag} (hw : (l.map Tag.slug).Nodup)
    {tg : Tag} (htg : tg ∈ l) {name slug : String}
    (hn : tg.name = name) (hs : tg.slug = slug) :
    l.find? (fun t => t.name == name && t.slug == slug) = some tg :=
  list_find?_eq_some_of_unique htg (by simp [hn, hs]) (fun b hb hpb => by
    simp only [Bool.and_eq_true, beq_iff_eq] at hpb
    exact tag_eq_of_slug_eq hw hb htg (hpb.2.trans hs.symm))

theorem collision_check_false {l : List Tag} (hw : (l.map Tag.slug).Nodup)
    {tg : Tag} (htg : tg ∈ l) {v : String} (hv : tg.slug = v) {p : Nat}
    (hp : tg.pk = p) :
    l.any (fun t => t.slug == v && t.pk != p) = false := by
  rw [List.any_eq_false]
  intro t ht
  simp only [Bool.and_eq_true, beq_iff_eq, bne_iff_ne, not_and, ne_eq,
    Decidable.not_not]
  intro hts
  have : t = tg := tag_eq_of_slug_eq hw ht htg (hts.trans hv.symm)
  rw [this, hp]

theorem find?_map_pk {g : Tag → Tag} (hg : ∀ t, (g t).pk = t.pk)
    (l : List Tag) (p : Nat) :
    (l.map g).find? (fun t => t.pk == p) =
      (l.find? (fun t => t.pk == p)).map g := by
  induction l with
  | nil => rfl
  | cons x xs ih =>
    by_cases h : x.pk == p
    · simp [List.find?_cons, hg, h]
    · have h2 : ((g x).pk == p) = false := by
        rw [hg x]; exact Bool.not_eq_true _ ▸ (by simpa using h)
      have h3 : (x.pk == p) = false := by simpa using h
      simp only [List.map_cons, List.find?_cons, h2, h3]
      exact ih

theorem addSiteToTag_eq_updRow (s : Store) (p site : Nat) :
    addSiteToTag s p site =
      updRow (fun t =>
        if t.sites.contains site then t else { t with sites := t.sites ++ [site] })
        p s := rfl

theorem removeSiteFromTag_eq_updRow (s : Store) (p site : Nat) :
    removeSiteFromTag s p site =
      updRow (fun t => { t with sites := t.sites.filter (fun x => !(x == site)) })
        p s := rfl

theorem updRow_updRow {u₁ u₂ : Tag → Tag} {p : Nat}
    (h₁ : ∀ t, (u₁ t).pk = t.pk) (s : Store) :
    updRow u₂ p (updRow u₁ p s) = updRow (fun t => u₂ (u₁ t)) p s := by
  simp only [updRow, List.map_map]
  congr 1
  apply List.map_congr_left
  intro t _
  by_cases h : t.pk == p
  · have : ((u₁ t).pk == p) = true := by rw [h₁ t]; exact h
    simp [Function.comp, h, this]
  · simp [Function.comp, h]

theorem addAllSites_disjoint {l : List Nat} (hnd : l.Nodup) :
    ∀ {sites : List Nat}, (∀ x ∈ l, sites.contains x = false) →
      addAllSites sites l = sites ++ l := by
  induction l with
  | nil => intro sites _; simp [addAllSites]
  | cons x xs ih =>
    intro sites hdisj
    have hx : sites.contains x = false := hdisj x (List.mem_cons_self x xs)
    have hnd2 : xs.Nodup := (List.nodup_cons.mp hnd).2
    have hx2 : x ∉ xs := (List.nodup_cons.mp hnd).1
    simp only [addAllSites, List.foldl_cons, hx, Bool.false_eq_true, if_false]
    have hstep : ∀ y ∈ xs, (sites ++ [x]).contains y = false := by
      intro y hy
      have hy1 : y ∉ sites := by simpa using hdisj y (List.mem_cons_of_mem x hy)
      have hy2 : y ≠ x := fun h => hx2 (h ▸ hy)
      simp [List.mem_append, hy1, hy2]
    have := ih hnd2 hstep
    simp only [addAllSites] at this
    rw [this, List.append_assoc]
    rfl

theorem foldl_addSiteToTag (p : Nat) :
    ∀ (l : List Nat) (s : Store),
      l.foldl (fun acc site => addSiteToTag acc p site) s =
        updRow (fun t => { t with sites := addAllSites t.sites l }) p s := by
  intro l
  induction l with
  | nil =>
    intro s
    simp only [List.foldl_nil, updRow, addAllSites, List.foldl_nil]
    cases s with
    | mk tags items objects nextPk =>
      simp only [Store.mk.injEq, and_true, true_and]
      conv_lhs => rw [← List.map_id tags]
      apply List.map_congr_left
      intro t _
      by_cases h : t.pk == p <;> simp [h]
  | cons x xs ih =>
    intro s
    simp only [List.foldl_cons]
    rw [addSiteToTag_eq_updRow, ih,
      updRow_updRow (by intro t; by_cases h : x ∈ t.sites <;> simp [h])]
    congr 1
    funext t
    by_cases h : x ∈ t.sites <;> simp [h, addAllSites]

theorem adminSaveTag_deferred {f : String → String} {s s1 : Store}
    {t t1 : TagInstance} {new_sites : List Nat} {fuel : Nat}
    (hform : save_form f s t new_sites fuel = .deferred t1 s1)
    {s2 : Store} {tag : Tag} (hsave : saveT f s1 t1 fuel = .ok s2 tag)
    (user_sites : List Nat) (change : Bool) :
    adminSaveTag f s t user_sites new_sites change fuel =
      some (save_related s2 tag.pk user_sites new_sites change) := by
  unfold adminSaveTag
  rw [hform]
  simp only [hsave]

theorem adminSaveTag_split {f : String → String} {s s1 : Store}
    {t : TagInstance} {new_sites : List Nat} {fuel : Nat} {newTag : Tag}
    (hform : save_form f s t new_sites fuel = .split s1 newTag)
    {s2 : Store} {tag : Tag}
    (hsave : saveT f s1 ⟨some newTag.pk, newTag.name, newTag.slug⟩ fuel = .ok s2 tag)
    (user_sites : List Nat) (change : Bool) :
    adminSaveTag f s t user_sites new_sites change fuel =
      some (save_related s2 tag.pk user_sites new_sites change) := by
  unfold adminSaveTag
  rw [hform]
  simp only [hsave]

/-! ### C1 — merge convergence through identity reuse -/

/-- C1: a tag-creation request whose `(name, slug)` pair exactly matches an
existing row — across all sites — reuses that row's identity: the admin add
flow leaves the set of `Tag` rows unchanged up to the matched row's
recomputed namespace and unioned site set.  Creating "news" for site A and
then "news" for site B thus yields exactly one row with site set {A, B}. -/
theorem C1_merge_convergence (f : String → String) (s : Store) (tg : Tag)
    (name slug : String) (user_sites new_sites : List Nat) (fuel : Nat)
    (hw : s.wf) (htg : tg ∈ s.tags) (hname : tg.name = name)
    (hslug : tg.slug = slug) (hnd : new_sites.Nodup) :
    adminCreateTag f s name slug user_sites new_sites fuel =
      some { s with tags := s.tags.map (fun t =>
        if t.pk == tg.pk then
          { tg with nspace := computeNamespace name,
                    sites := tg.sites ++ new_sites.filter
                      (fun x => !tg.sites.contains x) }
        else t) } := by
  obtain ⟨hpk, hslugs, hitems, hlt, hlti, hobj⟩ := hw
  have hclean : clean s ⟨none, name, slug⟩ = ⟨some tg.pk, name, slug⟩ := by
    simp [clean, find?_name_slug_eq hslugs htg hname hslug]
  have hform : save_form f s ⟨some tg.pk, name, slug⟩ new_sites fuel =
      .deferred ⟨some tg.pk, name, slug⟩ s := by
    simp [save_form, find?_pk_eq hpk htg rfl, hname, hslug]
  have hplain : saveT f s ⟨some tg.pk, name, slug⟩ fuel =
      .ok { s with tags := s.tags.map (fun x =>
              if x.pk == tg.pk then
                { x with name := name, nspace := computeNamespace name,
                         slug := slug }
              else x) }
          { tg with name := name, nspace := computeNamespace name,
                    slug := slug } := by
    simp only [saveT]
    rw [if_neg (by simp)]
    simp only [savePlain, find?_pk_eq hpk htg rfl,
      collision_check_false hslugs htg hslug rfl, Bool.false_eq_true, if_false]
  show adminSaveTag f s (clean s ⟨none, name, slug⟩) user_sites new_sites
      false fuel = _
  rw [hclean, adminSaveTag_deferred hform hplain]
  have hu_pk : ∀ x : Tag,
      ((fun x => if x.pk == tg.pk then
          { x with name := name, nspace := computeNamespace name, slug := slug }
        else x) x).pk = x.pk := by
    intro x; by_cases h : x.pk == tg.pk <;> simp [h]
  have hfind2 : (s.tags.map (fun x =>
        if x.pk == tg.pk then
          { x with name := name, nspace := computeNamespace name, slug := slug }
        else x)).find? (fun t => t.pk == tg.pk) =
      some { tg with name := name, nspace := computeNamespace name,
                     slug := slug } := by
    rw [find?_map_pk hu_pk, find?_pk_eq hpk htg rfl]
    simp
  simp only [save_related, hfind2, Bool.false_eq_true, if_false,
    foldl_addSiteToTag]
  congr 1
  simp only [updRow, List.map_map]
  congr 1
  apply List.map_congr_left
  intro x hx
  by_cases h : x.pk == tg.pk
  · have hxtg : x = tg := tag_eq_of_pk_eq hpk hx htg (by simpa using h)
    have hto_add_nd :
        (new_sites.filter (fun y => !decide (y ∈ tg.sites))).Nodup :=
      hnd.filter _
    have hto_add_dj : ∀ y ∈ new_sites.filter (fun y => !decide (y ∈ tg.sites)),
        tg.sites.contains y = false := by
      intro y hy
      simpa using (List.mem_filter.mp hy).2
    subst hxtg
    simp [Function.comp, ← hname, ← hslug]
    rw [addAllSites_disjoint hto_add_nd hto_add_dj]
  · simp [Function.comp, h]

/-- Witness for C1: a lone "news" row on site 1; creating "news"/"news" for
site 2 merges onto that row, leaving one row with sites {1, 2}. -/
theorem C1_merge_convergence_witness :
    (Store.wf ⟨[⟨0, "news", "", "news", [1]⟩], [], [], 1⟩ ∧
      ([2] : List Nat).Nodup) ∧
    adminCreateTag (fun x => x) ⟨[⟨0, "news", "", "news", [1]⟩], [], [], 1⟩
        "news" "news" [2] [2] 1 =
      some ⟨[⟨0, "news", "", "news", [1, 2]⟩], [], [], 1⟩ :=
  ⟨⟨by decide, by decide⟩,
    (C1_merge_convergence (fun x => x) ⟨[⟨0, "news", "", "news", [1]⟩], [], [], 1⟩
        ⟨0, "news", "", "news", [1]⟩ "news" "news" [2] [2] 1 (by decide)
        (by decide) rfl rfl (by decide)).trans (by decide)⟩

/-! ### C10 — the scope of identity reuse and of the retry loop -/

/-- C10 as stated is false at this input: an unsaved instance with a preset
slug but no primary key IS retargeted by the identity-resolution step when
its `(name, slug)` pair matches an existing row — `clean` guards only on the
primary key, not on the slug. -/
theorem C10_counterexample :
    clean ⟨[⟨0, "x", "", "x", [1]⟩], [], [], 1⟩ ⟨none, "x", "x"⟩ ≠
      ⟨none, "x", "x"⟩ := by decide

/-- C10 amended: identity resolution no-ops only for instances that already
have a primary key; the retry loop is skipped whenever a primary key or a
preset slug is present — such a save is exactly one plain write, its slug is
never regenerated, and a slug-uniqueness violation propagates as an
`IntegrityError` instead of being recovered. -/
theorem C10_plain_save (f : String → String) (s : Store) (t : TagInstance)
    (fuel : Nat) (hp : t.pk ≠ none ∨ t.slug ≠ "") :
    (∀ p, t.pk = some p → clean s t = t) ∧
    saveT f s t fuel = savePlain s t ∧
    (t.pk = none → slugTaken s.tags t.slug = true →
      saveT f s t fuel = .integrityError) ∧
    (∀ s2 row, savePlain s t = .ok s2 row → row.slug = t.slug) := by
  have hcond : (t.pk == none && t.slug == "") = false := by
    rcases hp with h | h
    · cases hpk : t.pk with
      | none => exact absurd hpk h
      | some p => simp
    · simp [h]
  refine ⟨?_, ?_, ?_, ?_⟩
  · intro p hpk
    simp [clean, hpk]
  · unfold saveT
    rw [hcond]
    simp
  · intro hpk htaken
    unfold saveT
    rw [hcond]
    simp only [Bool.false_eq_true, if_false, savePlain, hpk]
    rw [htaken, if_pos rfl]
  · intro s2 row hok
    unfold savePlain at hok
    split at hok
    · split at hok
      · split at hok
        · exact SaveResult.noConfusion hok
        · cases hok; rfl
      · split at hok
        · exact SaveResult.noConfusion hok
        · cases hok; rfl
    · split at hok
      · exact SaveResult.noConfusion hok
      · cases hok; rfl

/-- Witness for C10 amended: a persisted instance (pk 0) renamed to a
colliding slug propagates the violation; and its save is the plain write. -/
theorem C10_plain_save_witness :
    ((some 0 : Option Nat) ≠ none ∨ ("q" : String) ≠ "") ∧
    saveT (fun x => x) ⟨[⟨0, "x", "", "x", [1]⟩, ⟨1, "y", "", "y", [1]⟩], [], [], 2⟩
        ⟨some 0, "x", "y"⟩ 5 =
      savePlain ⟨[⟨0, "x", "", "x", [1]⟩, ⟨1, "y", "", "y", [1]⟩], [], [], 2⟩
        ⟨some 0, "x", "y"⟩ ∧
    savePlain ⟨[⟨0, "x", "", "x", [1]⟩, ⟨1, "y", "", "y", [1]⟩], [], [], 2⟩
        ⟨some 0, "x", "y"⟩ = .integrityError :=
  ⟨Or.inl (by decide),
    (C10_plain_save (fun x => x)
      ⟨[⟨0, "x", "", "x", [1]⟩, ⟨1, "y", "", "y", [1]⟩], [], [], 2⟩
      ⟨some 0, "x", "y"⟩ 5 (Or.inl (by decide))).2.1,
    by decide⟩

/-! ### The retry loop: ordered candidates, rollback framing, termination -/

theorem saveLoop_spec (f : String → String) (s : Store) (name : String) :
    ∀ (k i fuel : Nat), k < fuel →
      (∀ j, j < k → slugTaken s.tags (candidate f name (i + j)) = true) →
      slugTaken s.tags (candidate f name (i + k)) = false →
      saveLoop f s name fuel i (candidate f name i) =
        .ok { s with
                tags := s.tags ++ [freshRow s.nextPk name (candidate f name (i + k))],
                nextPk := s.nextPk + 1 }
            (freshRow s.nextPk name (candidate f name (i + k))) := by
  intro k
  induction k with
  | zero =>
    intro i fuel hfuel htaken hfree
    cases fuel with
    | zero => omega
    | succ m =>
      simp only [saveLoop]
      rw [if_neg]
      · simp
      · simp only [Nat.add_zero] at hfree
        simp [hfree]
  | succ k ih =>
    intro i fuel hfuel htaken hfree
    cases fuel with
    | zero => omega
    | succ m =>
      simp only [saveLoop]
      rw [if_pos]
      · have hstep : tagSlugify f name (some (i+1)) = candidate f name (i+1) := rfl
        rw [hstep]
        have h1 : ∀ j, j < k →
            slugTaken s.tags (candidate f name (i + 1 + j)) = true := by
          intro j hj
          have := htaken (j+1) (by omega)
          have he : i + (j + 1) = i + 1 + j := by omega
          rwa [he] at this
        have h2 : slugTaken s.tags (candidate f name (i + 1 + k)) = false := by
          have he : i + (k + 1) = i + 1 + k := by omega
          rwa [he] at hfree
        have hrec := ih (i+1) m (by omega) h1 h2
        rw [hrec]
        have he : i + 1 + k = i + (k + 1) := by omega
        rw [he]
      · have h0 := htaken 0 (by omega)
        simp only [Nat.add_zero] at h0
        simp [h0]

theorem saveLoop_no_error (f : String → String) (s : Store) (name : String) :
    ∀ (fuel i : Nat) (slug : String),
      saveLoop f s name fuel i slug ≠ .integrityError := by
  intro fuel
  induction fuel with
  | zero => intro i slug h; exact SaveResult.noConfusion h
  | succ m ih =>
    intro i slug
    simp only [saveLoop]
    by_cases h : slugTaken s.tags slug = true
    · rw [if_pos h]; exact ih _ _
    · rw [if_neg h]; intro hc; exact SaveResult.noConfusion hc

/-! ### C4 — ordered candidates, savepoint-local rollback -/

/-- C4: saving a new tag without a slug tries the candidates in the order
`slugify(name)`, `slugify(name)+"_1"`, `slugify(name)+"_2"`, …; each failed
attempt is rolled back to its own savepoint, leaving the surrounding state
untouched; the first candidate whose insert succeeds becomes the tag's slug.
With `k` the first free candidate index, the result store is exactly the old
store plus the single new row carrying `candidate f name k`. -/
theorem C4_slug_allocation_order (f : String → String) (s : Store)
    (t : TagInstance) (k fuel : Nat)
    (hpk : t.pk = none) (hslug : t.slug = "") (hfuel : k < fuel)
    (htaken : ∀ j, j < k → slugTaken s.tags (candidate f t.name j) = true)
    (hfree : slugTaken s.tags (candidate f t.name k) = false) :
    saveT f s t fuel =
      .ok { s with
              tags := s.tags ++ [freshRow s.nextPk t.name (candidate f t.name k)],
              nextPk := s.nextPk + 1 }
          (freshRow s.nextPk t.name (candidate f t.name k)) := by
  have hcond : (t.pk == none && t.slug == "") = true := by simp [hpk, hslug]
  unfold saveT
  rw [hcond, if_pos rfl]
  have h0 : tagSlugify f t.name none = candidate f t.name 0 := rfl
  rw [h0]
  have := saveLoop_spec f s t.name k 0 fuel hfuel
    (by intro j hj; simpa using htaken j hj) (by simpa using hfree)
  simpa using this

/-- Witness for C4: with rows "b" and "b_1" present, the fresh save of "b"
fails twice, rolls back each time, and lands on "b_2". -/
theorem C4_slug_allocation_order_witness :
    saveT (fun x => x) ⟨[⟨0, "b", "", "b", [1]⟩, ⟨1, "b", "", "b_1", [1]⟩], [], [], 2⟩
        ⟨none, "b", ""⟩ 3 =
      .ok ⟨[⟨0, "b", "", "b", [1]⟩, ⟨1, "b", "", "b_1", [1]⟩,
            ⟨2, "b", "", "b_2", []⟩], [], [], 3⟩
        ⟨2, "b", "", "b_2", []⟩ :=
  (C4_slug_allocation_order (fun x => x)
      ⟨[⟨0, "b", "", "b", [1]⟩, ⟨1, "b", "", "b_1", [1]⟩], [], [], 2⟩
      ⟨none, "b", ""⟩ 2 3 rfl rfl (by omega)
      (fun j hj => by
        match j, hj with
        | 0, _ => decide
        | 1, _ => decide)
      (by decide)).trans (by decide)

/-! ### C5 — no retry cap, no fatal error -/

/-- C5 amended: the retry loop imposes no retry cap and has no fatal-error
path: the fresh-save branch can never yield an `IntegrityError`, and any
fuel exceeding the number of existing rows guarantees success — however many
retries (including more than 1000) that takes.  Termination holds because
the suffixed candidates are pairwise distinct, so the existing rows can
exhaust at most `s.tags.length` of them. -/
theorem C5_no_retry_cap (f : String → String) (s : Store) (t : TagInstance)
    (fuel : Nat) (hpk : t.pk = none) (hslug : t.slug = "") :
    saveT f s t fuel ≠ .integrityError ∧
    (s.tags.length < fuel → ∃ s2 row, saveT f s t fuel = .ok s2 row) := by
  have hcond : (t.pk == none && t.slug == "") = true := by simp [hpk, hslug]
  constructor
  · unfold saveT
    rw [hcond, if_pos rfl]
    exact saveLoop_no_error f s t.name fuel 0 _
  · intro hfuel
    have hex : ∃ m, m < s.tags.length + 1 ∧
        slugTaken s.tags (candidate f t.name m) = false := by
      by_contra hall
      push_neg at hall
      have hall2 : ∀ m, m < s.tags.length + 1 →
          slugTaken s.tags (candidate f t.name m) = true := by
        intro m hm
        have := hall m hm
        revert this
        cases hres : slugTaken s.tags (candidate f t.name m) <;> simp
      have hmem : ∀ m, m < s.tags.length + 1 →
          candidate f t.name m ∈ s.tags.map Tag.slug := by
        intro m hm
        have h2 := hall2 m hm
        rw [slugTaken, List.any_eq_true] at h2
        obtain ⟨tg, htg, hbeq⟩ := h2
        rw [beq_iff_eq] at hbeq
        exact hbeq ▸ List.mem_map_of_mem Tag.slug htg
      have hnd : ((List.range (s.tags.length + 1)).map (candidate f t.name)).Nodup :=
        List.Nodup.map (candidate_inj f t.name) (List.nodup_range _)
      have hsub : ((List.range (s.tags.length + 1)).map (candidate f t.name)).toFinset ⊆
          (s.tags.map Tag.slug).toFinset := by
        intro x hxmem
        rw [List.mem_toFinset] at hxmem ⊢
        obtain ⟨m, hm, hmx⟩ := List.mem_map.mp hxmem
        rw [List.mem_range] at hm
        exact hmx ▸ hmem m hm
      have hc1 : ((List.range (s.tags.length + 1)).map
          (candidate f t.name)).toFinset.card = s.tags.length + 1 := by
        rw [List.toFinset_card_of_nodup hnd, List.length_map, List.length_range]
      have hc2 : (s.tags.map Tag.slug).toFinset.card ≤ s.tags.length := by
        calc (s.tags.map Tag.slug).toFinset.card
            ≤ (s.tags.map Tag.slug).length := List.toFinset_card_le _
          _ = s.tags.length := by rw [List.length_map]
      have := Finset.card_le_card hsub
      omega
    obtain ⟨m, hmlt, hmfree⟩ := hex
    have hex2 : ∃ j, slugTaken s.tags (candidate f t.name j) = false := ⟨m, hmfree⟩
    have hk0free := Nat.find_spec hex2
    have hk0le : Nat.find hex2 ≤ m := Nat.find_min' hex2 hmfree
    have hk0min : ∀ j, j < Nat.find hex2 →
        slugTaken s.tags (candidate f t.name j) = true := by
      intro j hj
      have := Nat.find_min hex2 hj
      revert this
      cases hres : slugTaken s.tags (candidate f t.name j) <;> simp
    have hloop := saveLoop_spec f s t.name (Nat.find hex2) 0 fuel (by omega)
      (by intro j hj; simpa using hk0min j hj) (by simpa using hk0free)
    exact ⟨_, _, by
      unfold saveT
      rw [hcond, if_pos rfl]
      have h0 : tagSlugify f t.name none = candidate f t.name 0 := rfl
      rw [h0]
      exact hloop⟩

/-- Witness for C5 amended: on an empty store, fuel 1 (one more than the row
count 0) already succeeds, and no error is possible. -/
theorem C5_no_retry_cap_witness :
    (saveT (fun x => x) ⟨[], [], [], 0⟩ ⟨none, "a", ""⟩ 1 ≠ .integrityError ∧
      (0 : Nat) < 1) ∧
    (∃ s2 row, saveT (fun x => x) ⟨[], [], [], 0⟩ ⟨none, "a", ""⟩ 1 = .ok s2 row) :=
  ⟨⟨(C5_no_retry_cap (fun x => x) ⟨[], [], [], 0⟩ ⟨none, "a", ""⟩ 1 rfl rfl).1,
    by decide⟩,
   (C5_no_retry_cap (fun x => x) ⟨[], [], [], 0⟩ ⟨none, "a", ""⟩ 1 rfl rfl).2
     (by decide)⟩

theorem collisionStore_taken {k : Nat} (hk : k < 1001) :
    slugTaken collisionStore.tags (candidate (fun x => x) "a" k) = true := by
  rw [slugTaken, List.any_eq_true]
  refine ⟨⟨k, "a", "", candidate (fun x => x) "a" k, []⟩, ?_, by simp⟩
  exact List.mem_map.mpr ⟨k, List.mem_range.mpr hk, rfl⟩

theorem collisionStore_free :
    slugTaken collisionStore.tags (candidate (fun x => x) "a" 1001) = false := by
  rw [slugTaken, List.any_eq_false]
  intro tg htg
  obtain ⟨i, hi, hieq⟩ := List.mem_map.mp htg
  rw [List.mem_range] at hi
  subst hieq
  intro hc
  rw [beq_iff_eq] at hc
  have := candidate_inj (fun x => x) "a" hc
  omega

/-- C5 as stated is false at this input: all of the first 1001 candidates
for "a" collide, so a 1000-capped loop would have to surface a fatal error —
instead the code keeps retrying and succeeds with the 1002nd candidate
`"a_1001"`. -/
theorem C5_counterexample :
    ((List.range 1001).all
        (fun k => slugTaken collisionStore.tags (candidate (fun x => x) "a" k))
      = true) ∧
    saveT (fun x => x) collisionStore ⟨none, "a", ""⟩ 1002 =
      .ok { collisionStore with
              tags := collisionStore.tags ++
                [freshRow collisionStore.nextPk "a"
                  (candidate (fun x => x) "a" 1001)],
              nextPk := collisionStore.nextPk + 1 }
          (freshRow collisionStore.nextPk "a"
            (candidate (fun x => x) "a" 1001)) := by
  constructor
  · rw [List.all_eq_true]
    intro k hk
    exact collisionStore_taken (List.mem_range.mp hk)
  · unfold saveT
    have hcond : (((⟨none, "a", ""⟩ : TagInstance).pk == none &&
        (⟨none, "a", ""⟩ : TagInstance).slug == "") = true) := rfl
    rw [hcond, if_pos rfl]
    have h0 : tagSlugify (fun x => x) "a" none = candidate (fun x => x) "a" 0 := rfl
    rw [h0]
    have hloop := saveLoop_spec (fun x => x) collisionStore "a" 1001 0 1002 (by omega)
      (fun j hj => by simpa using collisionStore_taken (by omega : j < 1001))
      (by simpa using collisionStore_free)
    simpa only [Nat.zero_add] using hloop

/-! ### `TagBase.delete`: characterization lemmas -/

theorem foldl_if_nop {α β : Type} (p : α → Bool) (g : β → α → β) :
    ∀ (l : List α), (∀ x ∈ l, p x = false) →
      ∀ b : β, l.foldl (fun acc x => if p x then g acc x else acc) b = b := by
  intro l
  induction l with
  | nil => intro _ b; rfl
  | cons x xs ih =>
    intro h b
    simp only [List.foldl_cons]
    rw [if_neg (by simp [h x (List.mem_cons_self x xs)])]
    exact ih (fun y hy => h y (List.mem_cons_of_mem x hy)) b

theorem tagDelete_eq (s : Store) (tg : Tag) (rm : List Nat)
    (hpk : (s.tags.map Tag.pk).Nodup) (htg : tg ∈ s.tags) :
    tagDelete s tg.pk rm =
      (if 0 < (tg.sites.filter (fun site => !rm.contains site)).length then
        tg.sites.foldl (fun acc site =>
          if !(tg.sites.filter (fun s2 => !rm.contains s2)).contains site then
            removeSiteFromTag
              (sweepOrphans acc tg.pk (tg.sites.filter (fun s2 => !rm.contains s2)))
              tg.pk site
          else acc) s
       else
        { s with tags := s.tags.filter (fun t => !(t.pk == tg.pk)),
                 items := s.items.filter (fun it => !(it.tag_pk == tg.pk)) }) := by
  unfold tagDelete
  rw [find?_pk_eq hpk htg rfl]

theorem tagDelete_noop (s : Store) (tg : Tag) (rm : List Nat)
    (hpk : (s.tags.map Tag.pk).Nodup) (htg : tg ∈ s.tags)
    (hlive : tg.sites ≠ []) (hdisj : ∀ x ∈ rm, x ∉ tg.sites) :
    tagDelete s tg.pk rm = s := by
  rw [tagDelete_eq s tg rm hpk htg]
  have hkeep : tg.sites.filter (fun site => !rm.contains site) = tg.sites :=
    List.filter_eq_self.mpr (fun x hx => by
      have hnot : x ∉ rm := fun hc => hdisj x hc hx
      simpa using hnot)
  rw [hkeep, if_pos (List.length_pos.mpr hlive)]
  apply foldl_if_nop
  intro x hx
  simpa using hx

/-! ### C7 — idempotent tenant removal -/

/-- C7: requesting removal of sites none of which are on a (live) tag is a
no-op: no error, the tag's site set is unchanged, and no association is
deleted — the whole store is untouched. -/
theorem C7_idempotent_removal (s : Store) (tg : Tag) (rm : List Nat)
    (hw : s.wf) (htg : tg ∈ s.tags) (hlive : tg.sites ≠ [])
    (hdisj : ∀ x ∈ rm, x ∉ tg.sites) :
    tagDelete s tg.pk rm = s :=
  tagDelete_noop s tg rm hw.1 htg hlive hdisj

/-- Witness for C7: removing the absent site 9 from the "news" tag changes
nothing. -/
theorem C7_idempotent_removal_witness :
    (Store.wf ⟨[⟨0, "news", "", "news", [1]⟩], [⟨0, 0, 7⟩], [⟨0, 7, some [1]⟩], 1⟩ ∧
      ([1] : List Nat) ≠ [] ∧ (9 : Nat) ∉ ([1] : List Nat)) ∧
    tagDelete ⟨[⟨0, "news", "", "news", [1]⟩], [⟨0, 0, 7⟩], [⟨0, 7, some [1]⟩], 1⟩
        0 [9] =
      ⟨[⟨0, "news", "", "news", [1]⟩], [⟨0, 0, 7⟩], [⟨0, 7, some [1]⟩], 1⟩ :=
  ⟨⟨by decide, by decide, by decide⟩,
    C7_idempotent_removal
      ⟨[⟨0, "news", "", "news", [1]⟩], [⟨0, 0, 7⟩], [⟨0, 7, some [1]⟩], 1⟩
      ⟨0, "news", "", "news", [1]⟩ [9] (by decide) (by decide) (by decide)
      (fun x hx => by
        have : x = 9 := List.mem_singleton.mp hx
        subst this
        decide)⟩

theorem filter_self_idem {α : Type} (p : α → Bool) (l : List α) :
    (l.filter p).filter p = l.filter p := by
  rw [List.filter_filter]
  apply List.filter_congr
  intro a _
  exact Bool.and_self _

theorem delete_fold_swept (pk : Nat) (keep : List Nat)
    (objs : List TObject) (n : Nat) (itemsS : List TaggedItem)
    (hstable : itemsS.filter
        (fun it => !(it.tag_pk == pk && orphaned objs keep it)) = itemsS) :
    ∀ (l : List Nat) (tags0 : List Tag),
      l.foldl (fun acc site =>
          if !keep.contains site then
            removeSiteFromTag (sweepOrphans acc pk keep) pk site
          else acc)
        ⟨tags0, itemsS, objs, n⟩ =
      ⟨l.foldl (fun ts site =>
          if !keep.contains site then
            ts.map (fun t => if t.pk == pk then
              { t with sites := t.sites.filter (fun x => !(x == site)) } else t)
          else ts) tags0, itemsS, objs, n⟩ := by
  intro l
  induction l with
  | nil => intro tags0; rfl
  | cons x xs ih =>
    intro tags0
    simp only [List.foldl_cons]
    by_cases h : (!keep.contains x) = true
    · rw [if_pos h, if_pos h]
      have hsweep : sweepOrphans ⟨tags0, itemsS, objs, n⟩ pk keep =
          ⟨tags0, itemsS.filter
            (fun it => !(it.tag_pk == pk && orphaned objs keep it)), objs, n⟩ := rfl
      have hrem : removeSiteFromTag
          ⟨tags0, itemsS, objs, n⟩ pk x =
          ⟨tags0.map (fun t => if t.pk == pk then
            { t with sites := t.sites.filter (fun y => !(y == x)) } else t),
           itemsS, objs, n⟩ := rfl
      rw [hsweep, hstable, hrem]
      exact ih _
    · rw [if_neg h, if_neg h]
      exact ih tags0

theorem delete_fold_spec (pk : Nat) (keep : List Nat) :
    ∀ (l : List Nat) (s0 : Store),
      l.foldl (fun acc site =>
          if !keep.contains site then
            removeSiteFromTag (sweepOrphans acc pk keep) pk site
          else acc) s0 =
      ⟨l.foldl (fun ts site =>
          if !keep.contains site then
            ts.map (fun t => if t.pk == pk then
              { t with sites := t.sites.filter (fun x => !(x == site)) } else t)
          else ts) s0.tags,
       if l.any (fun site => !keep.contains site) then
         s0.items.filter (fun it => !(it.tag_pk == pk && orphaned s0.objects keep it))
       else s0.items,
       s0.objects, s0.nextPk⟩ := by
  intro l
  induction l with
  | nil =>
    intro s0
    simp only [List.foldl_nil, List.any_nil]
    rfl
  | cons x xs ih =>
    intro s0
    simp only [List.foldl_cons, List.any_cons]
    by_cases h : (!keep.contains x) = true
    · rw [if_pos h]
      have hstep : removeSiteFromTag (sweepOrphans s0 pk keep) pk x =
          ⟨s0.tags.map (fun t => if t.pk == pk then
              { t with sites := t.sites.filter (fun y => !(y == x)) } else t),
           s0.items.filter
             (fun it => !(it.tag_pk == pk && orphaned s0.objects keep it)),
           s0.objects, s0.nextPk⟩ := rfl
      rw [hstep, delete_fold_swept pk keep s0.objects s0.nextPk _
        (filter_self_idem _ s0.items) xs _]
      have hor : (!keep.contains x ||
          xs.any (fun site => !keep.contains site)) = true := by
        rw [h, Bool.true_or]
      rw [if_pos h, if_pos hor]
    · have h2 : (!keep.contains x) = false := by
        revert h; cases !keep.contains x <;> simp
      rw [if_neg h, ih s0, if_neg h]
      simp only [h2, Bool.false_or]

theorem delete_tags_fold (pk : Nat) (keep : List Nat) :
    ∀ (l : List Nat) (ts : List Tag),
      l.foldl (fun ts2 site =>
          if !keep.contains site then
            ts2.map (fun t => if t.pk == pk then
              { t with sites := t.sites.filter (fun x => !(x == site)) } else t)
          else ts2) ts =
      ts.map (fun t => if t.pk == pk then
        { t with sites := removeSites keep l t.sites } else t) := by
  intro l
  induction l with
  | nil =>
    intro ts
    simp only [List.foldl_nil]
    conv_lhs => rw [← List.map_id ts]
    apply List.map_congr_left
    intro t _
    by_cases h : t.pk == pk <;> simp [h, removeSites]
  | cons x xs ih =>
    intro ts
    simp only [List.foldl_cons]
    by_cases h : (!keep.contains x) = true
    · have hxk : x ∉ keep := by simpa using h
      rw [if_pos h, ih, List.map_map]
      apply List.map_congr_left
      intro t _
      by_cases h2 : (t.pk == pk) = true <;>
        simp [Function.comp, h2, hxk, removeSites, List.foldl_cons]
    · have hxk : x ∈ keep := by
        by_contra hc
        exact h (by simpa using hc)
      rw [if_neg h, ih]
      apply List.map_congr_left
      intro t _
      by_cases h2 : (t.pk == pk) = true <;>
        simp [h2, hxk, removeSites, List.foldl_cons]

theorem removeSites_eq (keep : List Nat) :
    ∀ (l v : List Nat),
      removeSites keep l v =
        v.filter (fun x => keep.contains x || !l.contains x) := by
  intro l
  induction l with
  | nil =>
    intro v
    simp only [removeSites, List.foldl_nil]
    symm
    apply List.filter_eq_self.mpr
    intro a _
    simp
  | cons y l ih =>
    intro v
    simp only [removeSites, List.foldl_cons]
    by_cases h : (!keep.contains y) = true
    · rw [if_pos h]
      have hfold : List.foldl (fun ss site =>
          if !keep.contains site then ss.filter (fun x => !(x == site)) else ss)
          (v.filter (fun x => !(x == y))) l =
          removeSites keep l (v.filter (fun x => !(x == y))) := rfl
      rw [hfold, ih, List.filter_filter]
      apply List.filter_congr
      intro a _
      by_cases hay : a = y
      · subst hay
        have hk : a ∉ keep := by
          intro hc
          revert h
          simp [hc]
        simp [hk, List.contains_cons]
      · simp [hay, List.contains_cons]
    · rw [if_neg h]
      have hfold : List.foldl (fun ss site =>
          if !keep.contains site then ss.filter (fun x => !(x == site)) else ss)
          v l = removeSites keep l v := rfl
      rw [hfold, ih]
      apply List.filter_congr
      intro a _
      have hk : y ∈ keep := by
        by_contra hc
        exact h (by simp [hc])
      by_cases hay : a = y
      · subst hay
        simp [hk, List.contains_cons]
      · simp [hay, List.contains_cons]

theorem filter_keep_eq (sites rm : List Nat) :
    sites.filter (fun x =>
        (sites.filter (fun site => !rm.contains site)).contains x ||
          !sites.contains x) =
      sites.filter (fun site => !rm.contains site) := by
  apply List.filter_congr
  intro a ha
  by_cases hr : a ∈ rm
  · have hout : a ∉ sites.filter (fun site => !rm.contains site) := by
      simp [List.mem_filter, hr]
    simp [ha, hr, hout]
  · have hin : a ∈ sites.filter (fun site => !rm.contains site) := by
      simp [List.mem_filter, ha, hr]
    simp [ha, hr, hin]

/-! ### C6 — tenant removal: sweep or full deletion -/

/-- C6: removing sites from a tag: when some sites remain (and at least one
site is actually removed), the tag survives with exactly the remaining
sites and precisely the associations whose object exposes site membership
with zero remaining overlap are deleted; when no site remains, the tag row
itself is deleted together with all of its associations. -/
theorem C6_tenant_removal (s : Store) (tg : Tag) (rm : List Nat)
    (hw : s.wf) (htg : tg ∈ s.tags) :
    (tg.sites.filter (fun site => !rm.contains site) ≠ [] →
      tg.sites.any (fun site => rm.contains site) = true →
      tagDelete s tg.pk rm =
        { s with
          tags := s.tags.map (fun t => if t.pk == tg.pk then
            { t with sites := tg.sites.filter (fun site => !rm.contains site) }
            else t),
          items := s.items.filter (fun it =>
            !(it.tag_pk == tg.pk &&
              orphaned s.objects
                (tg.sites.filter (fun site => !rm.contains site)) it)) }) ∧
    (tg.sites.filter (fun site => !rm.contains site) = [] →
      tagDelete s tg.pk rm =
        { s with tags := s.tags.filter (fun t => !(t.pk == tg.pk)),
                 items := s.items.filter (fun it => !(it.tag_pk == tg.pk)) }) := by
  obtain ⟨hpk, hslugs, hitems, hlt, hlti, hobj⟩ := hw
  constructor
  · intro hkeep hrem
    rw [tagDelete_eq s tg rm hpk htg, if_pos (List.length_pos.mpr hkeep)]
    rw [delete_fold_spec tg.pk (tg.sites.filter (fun s2 => !rm.contains s2))
      tg.sites s]
    have hany : (tg.sites.any (fun site =>
        !(tg.sites.filter (fun s2 => !rm.contains s2)).contains site)) = true := by
      rw [List.any_eq_true] at hrem ⊢
      obtain ⟨site, hsite, hsrm⟩ := hrem
      refine ⟨site, hsite, ?_⟩
      have hnotmem : site ∉ tg.sites.filter (fun s2 => !rm.contains s2) := by
        simp only [List.mem_filter, not_and]
        intro _
        simpa using hsrm
      have hcf : (tg.sites.filter (fun s2 => !rm.contains s2)).contains site
          = false := by
        cases hc : (tg.sites.filter (fun s2 => !rm.contains s2)).contains site
        · rfl
        · exact absurd (by simpa using hc) hnotmem
      rw [hcf]
      rfl
    rw [if_pos hany, delete_tags_fold]
    have htags : s.tags.map (fun t =>
        if t.pk == tg.pk then
          { t with sites := (removeSites
              (tg.sites.filter (fun s2 => !rm.contains s2)) tg.sites t.sites) }
        else t) =
        s.tags.map (fun t => if t.pk == tg.pk then
          { t with sites := tg.sites.filter (fun site => !rm.contains site) }
          else t) := by
      apply List.map_congr_left
      intro t ht
      by_cases h2 : (t.pk == tg.pk) = true
      · have hteq : t = tg := tag_eq_of_pk_eq hpk ht htg (by simpa using h2)
        subst hteq
        rw [if_pos h2, if_pos h2, removeSites_eq, filter_keep_eq]
      · rw [if_neg h2, if_neg h2]
    rw [htags]
  · intro hkeep
    rw [tagDelete_eq s tg rm hpk htg, if_neg (by rw [hkeep]; simp)]

/-- Witness for C6: tag "news" on sites {1, 2} with two associations —
object 7 only on site 1, object 8 on site 2; removing site 1 keeps the tag
on {2} and sweeps only object 7's association; removing both sites deletes
the row and both associations. -/
theorem C6_tenant_removal_witness :
    (Store.wf ⟨[⟨0, "news", "", "news", [1, 2]⟩],
        [⟨0, 0, 7⟩, ⟨0, 0, 8⟩],
        [⟨0, 7, some [1]⟩, ⟨0, 8, some [2]⟩], 1⟩ ∧
      ([1, 2].filter (fun site => !([1] : List Nat).contains site) ≠ [] ∧
        [1, 2].any (fun site => ([1] : List Nat).contains site) = true) ∧
      ([1, 2].filter (fun site => !([1, 2] : List Nat).contains site) = [])) ∧
    tagDelete ⟨[⟨0, "news", "", "news", [1, 2]⟩],
        [⟨0, 0, 7⟩, ⟨0, 0, 8⟩],
        [⟨0, 7, some [1]⟩, ⟨0, 8, some [2]⟩], 1⟩ 0 [1] =
      ⟨[⟨0, "news", "", "news", [2]⟩], [⟨0, 0, 8⟩],
        [⟨0, 7, some [1]⟩, ⟨0, 8, some [2]⟩], 1⟩ ∧
    tagDelete ⟨[⟨0, "news", "", "news", [1, 2]⟩],
        [⟨0, 0, 7⟩, ⟨0, 0, 8⟩],
        [⟨0, 7, some [1]⟩, ⟨0, 8, some [2]⟩], 1⟩ 0 [1, 2] =
      ⟨[], [], [⟨0, 7, some [1]⟩, ⟨0, 8, some [2]⟩], 1⟩ :=
  ⟨⟨by decide, ⟨by decide, by decide⟩, by decide⟩,
    ((C6_tenant_removal ⟨[⟨0, "news", "", "news", [1, 2]⟩],
        [⟨0, 0, 7⟩, ⟨0, 0, 8⟩],
        [⟨0, 7, some [1]⟩, ⟨0, 8, some [2]⟩], 1⟩
        ⟨0, "news", "", "news", [1, 2]⟩ [1] (by decide) (by decide)).1
      (by decide) (by decide)).trans (by decide),
    ((C6_tenant_removal ⟨[⟨0, "news", "", "news", [1, 2]⟩],
        [⟨0, 0, 7⟩, ⟨0, 0, 8⟩],
        [⟨0, 7, some [1]⟩, ⟨0, 8, some [2]⟩], 1⟩
        ⟨0, "news", "", "news", [1, 2]⟩ [1, 2] (by decide) (by decide)).2
      (by decide)).trans (by decide)⟩

/-! ### C8 — adding tenants is a pure site union -/

theorem map_pk_updRow (u : Tag → Tag) (p : Nat) (hu : ∀ t, (u t).pk = t.pk)
    (l : List Tag) :
    (l.map (fun t => if t.pk == p then u t else t)).map Tag.pk =
      l.map Tag.pk := by
  rw [List.map_map]
  apply List.map_congr_left
  intro t _
  by_cases h : (t.pk == p) = true <;> simp [Function.comp, h, hu]

/-- `save_related` when no controlled site is deselected: a pure site union
on the existing row. -/
theorem save_related_union (s : Store) (tg : Tag)
    (user_sites new_sites : List Nat) (change : Bool)
    (hpk : (s.tags.map Tag.pk).Nodup) (htg : tg ∈ s.tags)
    (hnd : new_sites.Nodup)
    (hnorem : ∀ x ∈ tg.sites, user_sites.contains x = true →
      new_sites.contains x = true)
    (hlive : tg.sites ++ new_sites.filter (fun x => !tg.sites.contains x) ≠ []) :
    save_related s tg.pk user_sites new_sites change =
      { s with tags := s.tags.map (fun t => if t.pk == tg.pk then
          { t with sites :=
              t.sites ++ new_sites.filter (fun x => !t.sites.contains x) }
        else t) } := by
  have hrem : tg.sites.filter
      (fun x => user_sites.contains x && !new_sites.contains x) = [] := by
    apply List.filter_eq_nil_iff.mpr
    intro x hx
    intro hc
    rw [Bool.and_eq_true] at hc
    have h2 := hnorem x hx hc.1
    rw [h2] at hc
    simp at hc
  have hs1 : (new_sites.filter (fun x => !tg.sites.contains x)).foldl
      (fun acc site => addSiteToTag acc tg.pk site) s =
      { s with tags := s.tags.map (fun t => if t.pk == tg.pk then
          { t with sites :=
              t.sites ++ new_sites.filter (fun x => !t.sites.contains x) }
        else t) } := by
    rw [foldl_addSiteToTag]
    unfold updRow
    congr 1
    apply List.map_congr_left
    intro t ht
    by_cases h2 : (t.pk == tg.pk) = true
    · have hteq : t = tg := tag_eq_of_pk_eq hpk ht htg (by simpa using h2)
      subst hteq
      have hnd2 : (new_sites.filter (fun x => !t.sites.contains x)).Nodup :=
        hnd.filter _
      have hdj : ∀ y ∈ new_sites.filter (fun x => !t.sites.contains x),
          t.sites.contains y = false := by
        intro y hy
        have h3 := (List.mem_filter.mp hy).2
        revert h3
        cases t.sites.contains y <;> simp
      rw [if_pos h2, if_pos h2]
      dsimp only
      rw [addAllSites_disjoint hnd2 hdj]
    · rw [if_neg h2, if_neg h2]
  unfold save_related
  rw [find?_pk_eq hpk htg rfl]
  simp only [hrem, hs1]
  cases change with
  | false => rfl
  | true =>
    rw [if_pos rfl]
    have hpk2 : ((s.tags.map (fun t => if t.pk == tg.pk then
        { t with sites :=
            t.sites ++ new_sites.filter (fun x => !t.sites.contains x) }
        else t)).map Tag.pk).Nodup := by
      rw [map_pk_updRow
          (fun t =>
            { t with sites :=
                t.sites ++ new_sites.filter (fun x => !t.sites.contains x) })
          tg.pk (fun t => rfl)]
      exact hpk
    have htg2 : ({ tg with sites :=
        tg.sites ++ new_sites.filter (fun x => !tg.sites.contains x) } : Tag) ∈
        s.tags.map (fun t => if t.pk == tg.pk then
          { t with sites :=
              t.sites ++ new_sites.filter (fun x => !t.sites.contains x) }
          else t) := by
      have := List.mem_map_of_mem (fun t => if t.pk == tg.pk then
        { t with sites :=
            t.sites ++ new_sites.filter (fun x => !t.sites.contains x) }
        else t) htg
      simpa using this
    exact tagDelete_noop _
      ({ tg with sites :=
          tg.sites ++ new_sites.filter (fun x => !tg.sites.contains x) })
      [] hpk2 htg2 hlive (fun x hx => absurd hx (List.not_mem_nil x))

/-- C8: when the request deselects no site (every original site the user
controls stays selected), `save_related` is a pure site union on the
existing row: exactly the absent sites are appended to the tag's site set,
no `Tag` row is created or removed, and both the association store and the
object store are untouched. -/
theorem C8_add_tenants (s : Store) (tg : Tag) (user_sites new_sites : List Nat)
    (change : Bool) (hw : s.wf) (htg : tg ∈ s.tags) (hnd : new_sites.Nodup)
    (hnorem : ∀ x ∈ tg.sites, user_sites.contains x = true →
      new_sites.contains x = true)
    (hlive : tg.sites ++ new_sites.filter (fun x => !tg.sites.contains x) ≠ []) :
    save_related s tg.pk user_sites new_sites change =
      { s with tags := s.tags.map (fun t => if t.pk == tg.pk then
          { t with sites :=
              t.sites ++ new_sites.filter (fun x => !t.sites.contains x) }
        else t) } := by
  obtain ⟨hpk, hslugs, hitems, hlt, hlti, hobj⟩ := hw
  exact save_related_union s tg user_sites new_sites change hpk htg hnd hnorem
    hlive

/-- Witness for C8: adding site 2 to the "x" tag on site 1 through the
change view unions the sites to {1, 2} and leaves everything else alone. -/
theorem C8_add_tenants_witness :
    (Store.wf ⟨[⟨0, "x", "", "x", [1]⟩], [⟨0, 0, 7⟩], [], 1⟩ ∧
      ([1, 2] : List Nat).Nodup) ∧
    save_related ⟨[⟨0, "x", "", "x", [1]⟩], [⟨0, 0, 7⟩], [], 1⟩ 0 [1] [1, 2]
        true =
      ⟨[⟨0, "x", "", "x", [1, 2]⟩], [⟨0, 0, 7⟩], [], 1⟩ :=
  ⟨⟨by decide, by decide⟩,
    (C8_add_tenants ⟨[⟨0, "x", "", "x", [1]⟩], [⟨0, 0, 7⟩], [], 1⟩
        ⟨0, "x", "", "x", [1]⟩ [1] [1, 2] true (by decide) (by decide)
        (by decide) (by decide) (by decide)).trans (by decide)⟩

/-! ### C9 — `tags_for`: distinct, but with no tenant scoping -/

/-- C9 as stated is false at this input: `tags_for` is built on the plain
`Tag.objects` manager, so a caller on site 1 still receives the tag whose
site set is {2} — a tag whose tenant set excludes every tenant of the
caller appears in the result. -/
theorem C9_counterexample :
    tags_for ⟨[⟨0, "t", "", "t", [2]⟩], [⟨0, 0, 5⟩], [⟨0, 5, some [2]⟩], 1⟩
        0 (some 5) =
      [⟨0, "t", "", "t", [2]⟩] ∧
    ([2] : List Nat).filter (fun x => ([1] : List Nat).contains x) = [] :=
  ⟨by decide, by decide⟩

/-- C9 amended: `tags_for` returns exactly the distinct set of tags that
have an association of the given content type (and of the given instance,
when one is supplied) — with no tenant scoping whatsoever: the result is
independent of any caller site set. -/
theorem C9_tags_for (s : Store) (ct : Nat) (inst : Option Nat) (hw : s.wf) :
    (tags_for s ct inst).Nodup ∧
    ∀ t : Tag, t ∈ tags_for s ct inst ↔
      (t ∈ s.tags ∧ ∃ it ∈ s.items, it.tag_pk = t.pk ∧ it.ctype = ct ∧
        (∀ oid, inst = some oid → it.object_id = oid)) := by
  obtain ⟨hpk, _, _, _, _, _⟩ := hw
  have hnd : s.tags.Nodup := List.Nodup.of_map Tag.pk hpk
  constructor
  · exact hnd.filter _
  · intro t
    simp only [tags_for, List.mem_filter]
    constructor
    · rintro ⟨ht, hany⟩
      refine ⟨ht, ?_⟩
      rw [List.any_eq_true] at hany
      obtain ⟨it, hit, hcond⟩ := hany
      refine ⟨it, hit, ?_⟩
      cases inst with
      | none =>
        simp only [Bool.and_eq_true, beq_iff_eq] at hcond
        exact ⟨hcond.1.1, hcond.1.2, fun oid h => Option.noConfusion h⟩
      | some oid0 =>
        simp only [Bool.and_eq_true, beq_iff_eq] at hcond
        refine ⟨hcond.1.1, hcond.1.2, fun oid h => ?_⟩
        cases h
        exact hcond.2
    · rintro ⟨ht, it, hit, hpkk, hct, hobjid⟩
      refine ⟨ht, ?_⟩
      rw [List.any_eq_true]
      refine ⟨it, hit, ?_⟩
      cases inst with
      | none => simp [hpkk, hct]
      | some oid0 => simp [hpkk, hct, hobjid oid0 rfl]

/-- Witness for C9 amended, on the counterexample store: the result is
duplicate-free and membership is exactly association membership. -/
theorem C9_tags_for_witness :
    Store.wf ⟨[⟨0, "t", "", "t", [2]⟩], [⟨0, 0, 5⟩], [⟨0, 5, some [2]⟩], 1⟩ ∧
    (tags_for ⟨[⟨0, "t", "", "t", [2]⟩], [⟨0, 0, 5⟩], [⟨0, 5, some [2]⟩], 1⟩
        0 (some 5)).Nodup ∧
    ((⟨0, "t", "", "t", [2]⟩ : Tag) ∈
        tags_for ⟨[⟨0, "t", "", "t", [2]⟩], [⟨0, 0, 5⟩], [⟨0, 5, some [2]⟩], 1⟩
          0 (some 5) ↔
      ((⟨0, "t", "", "t", [2]⟩ : Tag) ∈
          [(⟨0, "t", "", "t", [2]⟩ : Tag)] ∧
        ∃ it ∈ [(⟨0, 0, 5⟩ : TaggedItem)], it.tag_pk = 0 ∧ it.ctype = 0 ∧
          (∀ oid, (some 5 : Option Nat) = some oid → it.object_id = oid))) :=
  ⟨by decide,
    (C9_tags_for ⟨[⟨0, "t", "", "t", [2]⟩], [⟨0, 0, 5⟩], [⟨0, 5, some [2]⟩], 1⟩
      0 (some 5) (by decide)).1,
    (C9_tags_for ⟨[⟨0, "t", "", "t", [2]⟩], [⟨0, 0, 5⟩], [⟨0, 5, some [2]⟩], 1⟩
      0 (some 5) (by decide)).2 ⟨0, "t", "", "t", [2]⟩⟩

/-! ### The split: site transfer and item sweep, characterized -/

theorem filter_remove_cons (v : List Nat) (x : Nat) (xs : List Nat) :
    (v.filter (fun y => !(y == x))).filter (fun y => !xs.contains y) =
      v.filter (fun y => !(x :: xs).contains y) := by
  rw [List.filter_filter]
  apply List.filter_congr
  intro a _
  by_cases hax : a = x
  · subst hax; simp [List.contains_cons]
  · simp [hax, List.contains_cons, Bool.and_comm]

theorem transferSites_spec (origPk newPk : Nat) (hne : origPk ≠ newPk) :
    ∀ (l : List Nat) (s0 : Store),
      l.foldl (fun acc site =>
          addSiteToTag (removeSiteFromTag acc origPk site) newPk site) s0 =
      { s0 with tags := s0.tags.map (fun t =>
          if t.pk == origPk then
            { t with sites := t.sites.filter (fun x => !l.contains x) }
          else if t.pk == newPk then
            { t with sites := addAllSites t.sites l }
          else t) } := by
  intro l
  induction l with
  | nil =>
    intro s0
    simp only [List.foldl_nil]
    cases s0 with
    | mk tags items objects nextPk =>
      simp only [Store.mk.injEq, and_true, true_and]
      conv_lhs => rw [← List.map_id tags]
      apply List.map_congr_left
      intro t _
      by_cases h1 : (t.pk == origPk) = true
      · rw [if_pos h1]
        simp [addAllSites]
      · rw [if_neg h1]
        by_cases h2 : (t.pk == newPk) = true
        · rw [if_pos h2]
          simp [addAllSites]
        · rw [if_neg h2]
          rfl
  | cons x xs ih =>
    intro s0
    simp only [List.foldl_cons]
    have hstep : addSiteToTag (removeSiteFromTag s0 origPk x) newPk x =
        { s0 with tags := s0.tags.map (fun t =>
            (fun t2 : Tag =>
              if t2.pk == newPk then
                (if t2.sites.contains x then t2
                 else { t2 with sites := t2.sites ++ [x] })
              else t2)
            (if t.pk == origPk then
              { t with sites := t.sites.filter (fun y => !(y == x)) }
            else t)) } := by
      rw [removeSiteFromTag_eq_updRow, addSiteToTag_eq_updRow]
      simp only [updRow, List.map_map]
      rfl
    rw [hstep, ih]
    congr 1
    rw [List.map_map]
    apply List.map_congr_left
    intro t _
    simp only [Function.comp_apply]
    by_cases h1 : (t.pk == origPk) = true
    · have h1eq : t.pk = origPk := by simpa using h1
      have h1n : (t.pk == newPk) = false := by
        rw [beq_eq_false_iff_ne]
        omega
      rw [if_pos h1, if_neg (by simp [h1n] : ¬((({ t with
        sites := t.sites.filter (fun y => !(y == x)) } : Tag).pk == newPk) = true))]
      rw [if_pos h1, if_pos h1]
      have : ({ t with sites := t.sites.filter (fun y => !(y == x)) } : Tag).sites
          = t.sites.filter (fun y => !(y == x)) := rfl
      rw [filter_remove_cons]
    · have h1eq : (t.pk == origPk) = false := by
        revert h1; cases t.pk == origPk <;> simp
      rw [if_neg h1]
      by_cases h2 : (t.pk == newPk) = true
      · rw [if_pos h2]
        by_cases h3 : (t.sites.contains x) = true
        · rw [if_pos h3, if_neg h1, if_pos h2, if_neg h1, if_pos h2]
          have hmem : x ∈ t.sites := by simpa using h3
          have : addAllSites t.sites (x :: xs) = addAllSites t.sites xs := by
            simp [addAllSites, List.foldl_cons, hmem]
          rw [this]
        · rw [if_neg h3]
          have hpk2 : (({ t with sites := t.sites ++ [x] } : Tag).pk == origPk)
              = false := h1eq
          have hpk3 : (({ t with sites := t.sites ++ [x] } : Tag).pk == newPk)
              = true := h2
          rw [if_neg (by simp [hpk2]), if_pos hpk3, if_neg h1, if_pos h2]
          have : addAllSites t.sites (x :: xs) =
              addAllSites (t.sites ++ [x]) xs := by
            simp only [addAllSites, List.foldl_cons]
            rw [if_neg h3]
          rw [this]
      · have h2eq : (t.pk == newPk) = false := by
          revert h2; cases t.pk == newPk <;> simp
        rw [if_neg h2, if_neg h1, if_neg h2, if_neg h1, if_neg h2]

theorem splitSweep_fold_frame (newPk : Nat) (new_sites : List Nat) :
    ∀ (l : List TaggedItem) (acc : Store),
      ((l.foldl (fun acc it =>
          { acc with
            items := splitSweepItems newPk new_sites acc.objects acc.items it })
        acc).tags = acc.tags ∧
       (l.foldl (fun acc it =>
          { acc with
            items := splitSweepItems newPk new_sites acc.objects acc.items it })
        acc).objects = acc.objects ∧
       (l.foldl (fun acc it =>
          { acc with
            items := splitSweepItems newPk new_sites acc.objects acc.items it })
        acc).nextPk = acc.nextPk) := by
  intro l
  induction l with
  | nil => intro acc; exact ⟨rfl, rfl, rfl⟩
  | cons x xs ih =>
    intro acc
    simp only [List.foldl_cons]
    exact ih _

theorem splitSweepItems_mem_other (newPk : Nat) (new_sites : List Nat)
    (objects : List TObject) (items : List TaggedItem) (it : TaggedItem)
    (x : TaggedItem) (hne : x ≠ it)
    (hnadd : x ≠ ⟨newPk, it.ctype, it.object_id⟩) :
    (x ∈ splitSweepItems newPk new_sites objects items it ↔ x ∈ items) := by
  unfold splitSweepItems
  split
  · exact Iff.rfl
  · split
    · exact Iff.rfl
    · dsimp only
      split_ifs <;>
        simp [List.mem_filter, List.mem_append, hne, hnadd]

theorem splitSweepItems_mem_self (newPk : Nat) (new_sites : List Nat)
    (objects : List TObject) (items : List TaggedItem) (it : TaggedItem)
    (obj : TObject) (hobj : objLookup objects it.ctype it.object_id = some obj)
    (osites : List Nat) (hosites : obj.sites = some osites)
    (hne : it.tag_pk ≠ newPk) :
    (it ∈ splitSweepItems newPk new_sites objects items it ↔
      (it ∈ items ∧ (osites.all (fun x => new_sites.contains x)) = false)) ∧
    ((⟨newPk, it.ctype, it.object_id⟩ : TaggedItem) ∈
        splitSweepItems newPk new_sites objects items it ↔
      ((⟨newPk, it.ctype, it.object_id⟩ : TaggedItem) ∈ items ∨
        (osites.any (fun x => new_sites.contains x)) = true)) := by
  have hit_ne : it ≠ (⟨newPk, it.ctype, it.object_id⟩ : TaggedItem) := by
    intro hc
    exact hne (congrArg TaggedItem.tag_pk hc)
  have hni_ne : (⟨newPk, it.ctype, it.object_id⟩ : TaggedItem) ≠ it :=
    fun h => hit_ne h.symm
  unfold splitSweepItems
  simp only [hobj, hosites]
  by_cases hall : (osites.all fun x => new_sites.contains x) = true
  · have hallP : ∀ x ∈ osites, x ∈ new_sites := by simpa using hall
    rw [if_pos hall]
    by_cases hany : (osites.any fun x => new_sites.contains x) = true
    · have hanyP : ∃ x ∈ osites, x ∈ new_sites := by simpa using hany
      rw [if_pos hany]
      by_cases hc : ((items.filter (fun j => !(j == it))).contains
          (⟨newPk, it.ctype, it.object_id⟩ : TaggedItem)) = true
      · rw [if_pos hc]
        constructor
        · simp [List.mem_filter, hall]
          exact fun _ => hallP
        · have hm : (⟨newPk, it.ctype, it.object_id⟩ : TaggedItem) ∈
              items.filter (fun j => !(j == it)) := by simpa using hc
          simp [hm, hany]
          exact Or.inl (List.mem_of_mem_filter hm)
      · rw [if_neg hc]
        constructor
        · simp [List.mem_filter, List.mem_append, hall, hit_ne]
          exact fun _ => hallP
        · simp [List.mem_append, hany]
          exact Or.inr hanyP
    · rw [if_neg hany]
      have hanyf : (osites.any fun x => new_sites.contains x) = false := by
        revert hany; cases osites.any fun x => new_sites.contains x <;> simp
      have hanyN : ∀ x ∈ osites, x ∉ new_sites := by simpa using hanyf
      constructor
      · simp [List.mem_filter, hall]
        exact fun _ => hallP
      · simp [List.mem_filter, hni_ne, hanyf]
        exact fun x hx hxn => absurd hxn (hanyN x hx)
  · have hallf : (osites.all fun x => new_sites.contains x) = false := by
      revert hall; cases osites.all fun x => new_sites.contains x <;> simp
    have hallN : ∃ x ∈ osites, x ∉ new_sites := by simpa using hallf
    rw [if_neg hall]
    by_cases hany : (osites.any fun x => new_sites.contains x) = true
    · have hanyP : ∃ x ∈ osites, x ∈ new_sites := by simpa using hany
      rw [if_pos hany]
      by_cases hc : (items.contains
          (⟨newPk, it.ctype, it.object_id⟩ : TaggedItem)) = true
      · rw [if_pos hc]
        have hm : (⟨newPk, it.ctype, it.object_id⟩ : TaggedItem) ∈ items := by
          simpa using hc
        constructor
        · simp [hallf]
          exact fun _ => hallN
        · simp [hm, hany]
      · rw [if_neg hc]
        constructor
        · simp [List.mem_append, hallf, hit_ne]
          exact fun _ => hallN
        · simp [List.mem_append, hany]
          exact Or.inr hanyP
    · rw [if_neg hany]
      have hanyf : (osites.any fun x => new_sites.contains x) = false := by
        revert hany; cases osites.any fun x => new_sites.contains x <;> simp
      have hanyN : ∀ x ∈ osites, x ∉ new_sites := by simpa using hanyf
      constructor
      · simp [hallf]
        exact fun _ => hallN
      · simp [hanyf]
        exact fun x hx hxn => absurd hxn (hanyN x hx)

theorem splitSweep_fold_mem_frame (newPk : Nat) (new_sites : List Nat) :
    ∀ (l : List TaggedItem) (acc : Store) (x : TaggedItem),
      (∀ j ∈ l, x ≠ j) → x.tag_pk ≠ newPk →
      (x ∈ (l.foldl (fun acc it =>
          { acc with
            items := splitSweepItems newPk new_sites acc.objects acc.items it })
        acc).items ↔ x ∈ acc.items) := by
  intro l
  induction l with
  | nil => intro acc x _ _; exact Iff.rfl
  | cons j js ih =>
    intro acc x hne hpk
    simp only [List.foldl_cons]
    rw [ih _ x (fun j2 hj2 => hne j2 (List.mem_cons_of_mem j hj2)) hpk]
    exact splitSweepItems_mem_other newPk new_sites acc.objects acc.items j x
      (hne j (List.mem_cons_self j js))
      (fun hc => hpk (congrArg TaggedItem.tag_pk hc))

theorem splitSweep_fold_mem_self (newPk : Nat) (new_sites : List Nat)
    (objects : List TObject) :
    ∀ (l : List TaggedItem) (acc : Store), acc.objects = objects →
      l.Nodup → ∀ it ∈ l, it.tag_pk ≠ newPk →
      ∀ obj, objLookup objects it.ctype it.object_id = some obj →
      ∀ osites, obj.sites = some osites →
      (it ∈ (l.foldl (fun acc it =>
          { acc with
            items := splitSweepItems newPk new_sites acc.objects acc.items it })
        acc).items ↔
        it ∈ acc.items ∧ (osites.all (fun x => new_sites.contains x)) = false) := by
  intro l
  induction l with
  | nil => intro acc _ _ it hmem; cases hmem
  | cons j js ih =>
    intro acc hacc hnd it hmem hpk obj hobj osites hosites
    have hjs : j ∉ js := (List.nodup_cons.mp hnd).1
    have hnd2 : js.Nodup := (List.nodup_cons.mp hnd).2
    simp only [List.foldl_cons]
    rcases List.mem_cons.mp hmem with hij | hmem2
    · subst hij
      rw [splitSweep_fold_mem_frame newPk new_sites js _ it
        (fun j2 hj2 => fun hc => hjs (hc ▸ hj2)) hpk]
      show it ∈ splitSweepItems newPk new_sites acc.objects acc.items it ↔ _
      rw [hacc]
      exact (splitSweepItems_mem_self newPk new_sites objects acc.items it
        obj hobj osites hosites hpk).1
    · have hij : it ≠ j := fun hc => hjs (hc ▸ hmem2)
      have hstep : it ∈ splitSweepItems newPk new_sites acc.objects acc.items j ↔
          it ∈ acc.items :=
        splitSweepItems_mem_other newPk new_sites acc.objects acc.items j it hij
          (fun hc => hpk (congrArg TaggedItem.tag_pk hc))
      rw [ih { acc with
          items := splitSweepItems newPk new_sites acc.objects acc.items j }
        hacc hnd2 it hmem2 hpk obj hobj osites hosites, hstep]

theorem splitSweep_fold_mem_new (newPk : Nat) (new_sites : List Nat)
    (objects : List TObject) (c o : Nat) :
    ∀ (l : List TaggedItem) (acc : Store), acc.objects = objects →
      (∀ j ∈ l, j.tag_pk ≠ newPk) →
      ((⟨newPk, c, o⟩ : TaggedItem) ∈ (l.foldl (fun acc it =>
          { acc with
            items := splitSweepItems newPk new_sites acc.objects acc.items it })
        acc).items ↔
        (⟨newPk, c, o⟩ : TaggedItem) ∈ acc.items ∨
          ∃ j ∈ l, j.ctype = c ∧ j.object_id = o ∧
            ∃ obj, objLookup objects c o = some obj ∧
              ∃ osites, obj.sites = some osites ∧
                (osites.any (fun x => new_sites.contains x)) = true) := by
  intro l
  induction l with
  | nil =>
    intro acc _ _
    simp
  | cons j js ih =>
    intro acc hacc hpks
    have hjpk : j.tag_pk ≠ newPk := hpks j (List.mem_cons_self j js)
    simp only [List.foldl_cons]
    rw [ih { acc with
        items := splitSweepItems newPk new_sites acc.objects acc.items j }
      hacc (fun j2 hj2 => hpks j2 (List.mem_cons_of_mem j hj2))]
    by_cases hmatch : j.ctype = c ∧ j.object_id = o
    · obtain ⟨hc1, hc2⟩ := hmatch
      have hy : (⟨newPk, c, o⟩ : TaggedItem) =
          ⟨newPk, j.ctype, j.object_id⟩ := by rw [hc1, hc2]
      cases hlook : objLookup objects j.ctype j.object_id with
      | none =>
        have hstep : splitSweepItems newPk new_sites acc.objects acc.items j =
            acc.items := by
          unfold splitSweepItems
          rw [hacc, hlook]
        rw [hstep]
        constructor
        · rintro (h | h)
          · exact Or.inl h
          · exact Or.inr (by
              obtain ⟨j2, hj2, hrest⟩ := h
              exact ⟨j2, List.mem_cons_of_mem j hj2, hrest⟩)
        · rintro (h | ⟨j2, hj2, hc1', hc2', obj, hobj, rest⟩)
          · exact Or.inl h
          · rcases List.mem_cons.mp hj2 with hjj | hj2'
            · subst hjj
              rw [hc1', hc2'] at hlook
              rw [hlook] at hobj
              exact Option.noConfusion hobj
            · exact Or.inr ⟨j2, hj2', hc1', hc2', obj, hobj, rest⟩
      | some obj =>
        cases hsit : obj.sites with
        | none =>
          have hstep : splitSweepItems newPk new_sites acc.objects acc.items j =
              acc.items := by
            unfold splitSweepItems
            rw [hacc, hlook]
            dsimp only
            rw [hsit]
          rw [hstep]
          constructor
          · rintro (h | h)
            · exact Or.inl h
            · exact Or.inr (by
                obtain ⟨j2, hj2, hrest⟩ := h
                exact ⟨j2, List.mem_cons_of_mem j hj2, hrest⟩)
          · rintro (h | ⟨j2, hj2, hc1', hc2', obj', hobj', osites', hsit', _⟩)
            · exact Or.inl h
            · rcases List.mem_cons.mp hj2 with hjj | hj2'
              · subst hjj
                rw [hc1', hc2'] at hlook
                rw [hlook] at hobj'
                cases hobj'
                rw [hsit] at hsit'
                exact Option.noConfusion hsit'
              · exact Or.inr ⟨j2, hj2', hc1', hc2', obj', hobj', osites', hsit', by
                  assumption⟩
        | some osites =>
          have hstep := (splitSweepItems_mem_self newPk new_sites acc.objects
            acc.items j obj (hacc ▸ hlook) osites hsit hjpk).2
          rw [hy, hstep]
          constructor
          · rintro ((h | hany) | h)
            · exact Or.inl (hy ▸ h)
            · refine Or.inr ⟨j, List.mem_cons_self j js, hc1, hc2, obj, ?_, osites,
                hsit, hany⟩
              rw [← hc1, ← hc2]
              exact hlook
            · obtain ⟨j2, hj2, hrest⟩ := h
              exact Or.inr ⟨j2, List.mem_cons_of_mem j hj2, hrest⟩
          · rintro (h | ⟨j2, hj2, hc1', hc2', obj', hobj', osites', hsit', hany'⟩)
            · exact Or.inl (Or.inl (hy ▸ h))
            · rcases List.mem_cons.mp hj2 with hjj | hj2'
              · subst hjj
                rw [hc1', hc2'] at hlook
                rw [hlook] at hobj'
                cases hobj'
                rw [hsit] at hsit'
                cases hsit'
                exact Or.inl (Or.inr hany')
              · exact Or.inr ⟨j2, hj2', hc1', hc2', obj', hobj', osites', hsit',
                  hany'⟩
    · have hyne : (⟨newPk, c, o⟩ : TaggedItem) ≠
          ⟨newPk, j.ctype, j.object_id⟩ := by
        intro hc
        apply hmatch
        have h1 := congrArg TaggedItem.ctype hc
        have h2 := congrArg TaggedItem.object_id hc
        exact ⟨h1.symm, h2.symm⟩
      have hjne : (⟨newPk, c, o⟩ : TaggedItem) ≠ j := by
        intro hc
        exact hjpk ((congrArg TaggedItem.tag_pk hc).symm)
      have hstep := splitSweepItems_mem_other newPk new_sites acc.objects
        acc.items j ⟨newPk, c, o⟩ hjne hyne
      rw [hstep]
      constructor
      · rintro (h | h)
        · exact Or.inl h
        · obtain ⟨j2, hj2, hrest⟩ := h
          exact Or.inr ⟨j2, List.mem_cons_of_mem j hj2, hrest⟩
      · rintro (h | ⟨j2, hj2, hc1', hc2', rest⟩)
        · exact Or.inl h
        · rcases List.mem_cons.mp hj2 with hjj | hj2'
          · subst hjj
            exact absurd ⟨hc1', hc2'⟩ hmatch
          · exact Or.inr ⟨j2, hj2', hc1', hc2', rest⟩

theorem filter_and_notin_self (u l : List Nat) :
    l.filter (fun x => u.contains x && !l.contains x) = [] := by
  apply List.filter_eq_nil_iff.mpr
  intro x hx hc
  rw [Bool.and_eq_true] at hc
  have h2 := hc.2
  simp [hx] at h2

theorem filter_notin_self (l : List Nat) :
    l.filter (fun x => !l.contains x) = [] := by
  apply List.filter_eq_nil_iff.mpr
  intro x hx hc
  simp [hx] at hc

theorem addAllSites_nil (new_sites : List Nat) (hnd : new_sites.Nodup) :
    addAllSites [] new_sites = new_sites := by
  have h := addAllSites_disjoint hnd
    (fun x _ => (rfl : (([] : List Nat).contains x) = false))
  simpa using h

theorem splitSweep_frame (s : Store) (origPk newPk : Nat)
    (new_sites : List Nat) :
    (splitSweep s origPk newPk new_sites).tags = s.tags ∧
    (splitSweep s origPk newPk new_sites).objects = s.objects ∧
    (splitSweep s origPk newPk new_sites).nextPk = s.nextPk :=
  splitSweep_fold_frame newPk new_sites
    (s.items.filter (fun it => it.tag_pk == origPk)) s

/-- Tail of the split pipeline: once the post-split store holds the new row
with its final field values, `save_model`'s write of the new instance is an
identity update and `save_related` is a no-op. -/
theorem split_finish (f : String → String) (s3 : Store) (p : Nat)
    (newName newSlug : String) (user_sites new_sites : List Nat) (fuel : Nat)
    (R : Tag)
    (hR : R = ⟨p, newName, computeNamespace newName, newSlug, new_sites⟩)
    (hpks : (s3.tags.map Tag.pk).Nodup)
    (hslugs3 : (s3.tags.map Tag.slug).Nodup)
    (hRmem : R ∈ s3.tags) (hns : new_sites ≠ []) :
    saveT f s3 ⟨some p, newName, newSlug⟩ fuel = .ok s3 R ∧
    save_related s3 p user_sites new_sites true = s3 := by
  subst hR
  have hfind : s3.tags.find? (fun tg => tg.pk == p) =
      some ⟨p, newName, computeNamespace newName, newSlug, new_sites⟩ :=
    find?_pk_eq hpks hRmem rfl
  constructor
  · have hcol : s3.tags.any (fun tg => tg.slug == newSlug && tg.pk != p) =
        false :=
      collision_check_false hslugs3 hRmem rfl rfl
    have hmapid : s3.tags.map (fun t2 => if t2.pk == p then
        { t2 with name := newName, nspace := computeNamespace newName,
                  slug := newSlug } else t2) = s3.tags := by
      conv_rhs => rw [← List.map_id s3.tags]
      apply List.map_congr_left
      intro t2 ht2
      by_cases h : (t2.pk == p) = true
      · have ht2R : t2 =
            ⟨p, newName, computeNamespace newName, newSlug, new_sites⟩ :=
          tag_eq_of_pk_eq hpks ht2 hRmem (by simpa using h)
        subst ht2R
        rw [if_pos h]
        rfl
      · rw [if_neg h]
        rfl
    unfold saveT
    rw [if_neg (by simp)]
    unfold savePlain
    dsimp only
    rw [hfind]
    dsimp only
    rw [if_neg (by simp [hcol]), hmapid]
  · unfold save_related
    rw [hfind]
    dsimp only
    rw [filter_and_notin_self user_sites new_sites, filter_notin_self new_sites]
    simp only [List.foldl_nil, if_pos rfl]
    exact tagDelete_noop s3
      ⟨p, newName, computeNamespace newName, newSlug, new_sites⟩ [] hpks hRmem
      hns (fun x hx => absurd hx (List.not_mem_nil x))

/-- The split branch of the admin rename pipeline, end to end: with the
edited name/slug differing from the original row's, the original's sites not
all among the edited ones, and a fresh non-empty edited slug, the request
creates the new row under the next primary key, moves the edited sites from
the original row onto it, and runs the item sweep — nothing else changes. -/
theorem split_pipeline (f : String → String) (s : Store) (tg : Tag)
    (newName newSlug : String) (user_sites new_sites : List Nat) (fuel : Nat)
    (hw : s.wf) (htg : tg ∈ s.tags)
    (hch : (newName == tg.name && newSlug == tg.slug) = false)
    (hnotcov : (tg.sites.all (fun st => new_sites.contains st)) = false)
    (hslugne : newSlug ≠ "")
    (hfresh : ∀ t ∈ s.tags, t.slug ≠ newSlug)
    (hnd : new_sites.Nodup) (hns : new_sites ≠ []) :
    adminRenameTag f s tg.pk newName newSlug user_sites new_sites fuel =
      some (splitSweep
        { s with
            tags := s.tags.map (fun t => if t.pk == tg.pk then
                { t with
                  sites := t.sites.filter (fun x => !new_sites.contains x) }
              else t) ++
              [⟨s.nextPk, newName, computeNamespace newName, newSlug,
                new_sites⟩],
            nextPk := s.nextPk + 1 }
        tg.pk s.nextPk new_sites) := by
  obtain ⟨hpk, hslugs, hitems, hlt, hlti, hobjw⟩ := hw
  have hne2 : tg.pk ≠ s.nextPk := by
    have := hlt tg htg
    omega
  have hslugTaken : slugTaken s.tags newSlug = false := by
    rw [slugTaken, List.any_eq_false]
    intro t ht
    simp [hfresh t ht]
  have hplain1 : saveT f s ⟨none, newName, newSlug⟩ fuel =
      .ok { s with tags := s.tags ++ [freshRow s.nextPk newName newSlug],
                   nextPk := s.nextPk + 1 }
          (freshRow s.nextPk newName newSlug) := by
    unfold saveT
    rw [if_neg (by simp [hslugne])]
    unfold savePlain
    dsimp only
    rw [if_neg (by simp [hslugTaken])]
  have hmap1 : s.tags.map (fun t =>
      if t.pk == tg.pk then
        { t with sites := t.sites.filter (fun x => !new_sites.contains x) }
      else if t.pk == s.nextPk then
        { t with sites := addAllSites t.sites new_sites }
      else t) =
      s.tags.map (fun t => if t.pk == tg.pk then
        { t with sites := t.sites.filter (fun x => !new_sites.contains x) }
      else t) := by
    apply List.map_congr_left
    intro t ht
    have hlt2 := hlt t ht
    by_cases h1 : (t.pk == tg.pk) = true
    · rw [if_pos h1, if_pos h1]
    · rw [if_neg h1, if_neg h1, if_neg (by simp; omega)]
  have hmap2 : (fun t =>
      if t.pk == tg.pk then
        { t with sites := t.sites.filter (fun x => !new_sites.contains x) }
      else if t.pk == s.nextPk then
        { t with sites := addAllSites t.sites new_sites }
      else t) (freshRow s.nextPk newName newSlug) =
      (⟨s.nextPk, newName, computeNamespace newName, newSlug,
        new_sites⟩ : Tag) := by
    dsimp only
    rw [if_neg (by simp [freshRow]; omega), if_pos (by simp [freshRow])]
    show ({ freshRow s.nextPk newName newSlug with
        sites := addAllSites [] new_sites } : Tag) = _
    rw [addAllSites_nil new_sites hnd]
    rfl
  have htrans : transferSites
      { s with tags := s.tags ++ [freshRow s.nextPk newName newSlug],
               nextPk := s.nextPk + 1 }
      tg.pk s.nextPk new_sites =
      { s with
          tags := s.tags.map (fun t => if t.pk == tg.pk then
              { t with
                sites := t.sites.filter (fun x => !new_sites.contains x) }
            else t) ++
            [⟨s.nextPk, newName, computeNamespace newName, newSlug,
              new_sites⟩],
          nextPk := s.nextPk + 1 } := by
    unfold transferSites
    rw [transferSites_spec tg.pk s.nextPk hne2 new_sites]
    rw [show ({ s with
        tags := s.tags ++ [freshRow s.nextPk newName newSlug],
        nextPk := s.nextPk + 1 } : Store).tags =
      s.tags ++ [freshRow s.nextPk newName newSlug] from rfl]
    rw [List.map_append, hmap1]
    simp only [List.map_cons, List.map_nil, hmap2]
  have hform : save_form f s ⟨some tg.pk, newName, newSlug⟩ new_sites fuel =
      .split
        (splitSweep
          { s with
              tags := s.tags.map (fun t => if t.pk == tg.pk then
                  { t with
                    sites := t.sites.filter (fun x => !new_sites.contains x) }
                else t) ++
                [⟨s.nextPk, newName, computeNamespace newName, newSlug,
                  new_sites⟩],
              nextPk := s.nextPk + 1 }
          tg.pk s.nextPk new_sites)
        (freshRow s.nextPk newName newSlug) := by
    unfold save_form
    dsimp only
    rw [find?_pk_eq hpk htg rfl]
    dsimp only
    rw [if_neg (by rw [hch]; simp), if_neg (by rw [hnotcov]; simp), hplain1]
    dsimp only
    rw [show (freshRow s.nextPk newName newSlug).pk = s.nextPk from rfl, htrans]
  have hpkT' : ((s.tags.map (fun t => if t.pk == tg.pk then
      { t with sites := t.sites.filter (fun x => !new_sites.contains x) }
    else t)).map Tag.pk) = s.tags.map Tag.pk :=
    map_pk_updRow
      (fun t =>
        { t with sites := t.sites.filter (fun x => !new_sites.contains x) })
      tg.pk (fun t => rfl) s.tags
  have hslugT' : ((s.tags.map (fun t => if t.pk == tg.pk then
      { t with sites := t.sites.filter (fun x => !new_sites.contains x) }
    else t)).map Tag.slug) = s.tags.map Tag.slug := by
    rw [List.map_map]
    apply List.map_congr_left
    intro t ht
    by_cases h : (t.pk == tg.pk) = true <;> simp [Function.comp, h]
  have hpks3 : (((s.tags.map (fun t => if t.pk == tg.pk then
      { t with sites := t.sites.filter (fun x => !new_sites.contains x) }
    else t)) ++
      [(⟨s.nextPk, newName, computeNamespace newName, newSlug,
        new_sites⟩ : Tag)]).map Tag.pk).Nodup := by
    rw [List.map_append, hpkT']
    simp only [List.map_cons, List.map_nil]
    rw [List.nodup_append]
    refine ⟨hpk, List.nodup_singleton _, ?_⟩
    intro a ha hb
    simp only [List.mem_singleton] at hb
    obtain ⟨t, ht, hta⟩ := List.mem_map.mp ha
    have := hlt t ht
    subst hb
    rw [← hta] at this
    omega
  have hslugs3 : (((s.tags.map (fun t => if t.pk == tg.pk then
      { t with sites := t.sites.filter (fun x => !new_sites.contains x) }
    else t)) ++
      [(⟨s.nextPk, newName, computeNamespace newName, newSlug,
        new_sites⟩ : Tag)]).map Tag.slug).Nodup := by
    rw [List.map_append, hslugT']
    simp only [List.map_cons, List.map_nil]
    rw [List.nodup_append]
    refine ⟨hslugs, List.nodup_singleton _, ?_⟩
    intro a ha hb
    simp only [List.mem_singleton] at hb
    obtain ⟨t, ht, hta⟩ := List.mem_map.mp ha
    exact hfresh t ht (hta.trans hb)
  have hRmem : (⟨s.nextPk, newName, computeNamespace newName, newSlug,
      new_sites⟩ : Tag) ∈
      (s.tags.map (fun t => if t.pk == tg.pk then
        { t with sites := t.sites.filter (fun x => !new_sites.contains x) }
      else t)) ++
      [(⟨s.nextPk, newName, computeNamespace newName, newSlug,
        new_sites⟩ : Tag)] :=
    List.mem_append_right _ (List.mem_singleton.mpr rfl)
  have hfr := splitSweep_frame
    { s with
        tags := s.tags.map (fun t => if t.pk == tg.pk then
            { t with
              sites := t.sites.filter (fun x => !new_sites.contains x) }
          else t) ++
          [⟨s.nextPk, newName, computeNamespace newName, newSlug,
            new_sites⟩],
        nextPk := s.nextPk + 1 }
    tg.pk s.nextPk new_sites
  have hfin := split_finish f
    (splitSweep
      { s with
          tags := s.tags.map (fun t => if t.pk == tg.pk then
              { t with
                sites := t.sites.filter (fun x => !new_sites.contains x) }
            else t) ++
            [⟨s.nextPk, newName, computeNamespace newName, newSlug,
              new_sites⟩],
          nextPk := s.nextPk + 1 }
      tg.pk s.nextPk new_sites)
    s.nextPk newName newSlug user_sites new_sites fuel
    ⟨s.nextPk, newName, computeNamespace newName, newSlug, new_sites⟩ rfl
    (by rw [hfr.1]; exact hpks3)
    (by rw [hfr.1]; exact hslugs3)
    (by rw [hfr.1]; exact hRmem) hns
  show adminSaveTag f s ⟨some tg.pk, newName, newSlug⟩ user_sites new_sites
      true fuel = _
  rw [adminSaveTag_split hform hfin.1 user_sites true]
  exact congrArg some hfin.2

/-! ### C2 — rename in place versus split -/

/-- C2 as stated is false at this input: "news" on sites {1, 2} is renamed
for site 1 only, changing the name to "headlines" but keeping the slug
"news".  The edited sites do not cover the tag's sites, so the claim
demands a split — a new Tag row with the new name — but the code's
`new_obj.save()` takes the plain-insert branch (the slug is preset), the
INSERT collides with the original row's slug, and the uncaught
`IntegrityError` aborts the request: no new row, no site transfer, no
store at all. -/
theorem C2_counterexample :
    adminRenameTag (fun x => x)
        ⟨[⟨0, "news", "", "news", [1, 2]⟩], [], [], 1⟩
        0 "headlines" "news" [1] [1] 1 = none ∧
    (¬∀ x ∈ ([1, 2] : List Nat), x ∈ ([1] : List Nat)) := by decide

/-- C2 amended: renaming a persisted tag through the admin change view.
When the edited site selection covers every site currently on the tag, the
rename is applied in place on the same row — same primary key, name/slug
updated, edited sites unioned on, no new row — provided no *other* row
holds the edited slug; if another row does, the plain write raises
`IntegrityError` and the request fails with no state produced.  When the
edited sites do not cover the tag's sites and the name or slug changed, a
split happens only if *no* row at all holds the edited slug: then a new
row with the edited name and slug is created under the next primary key
carrying exactly the edited sites, every edited site is removed from the
original row, and the original row survives with its reduced site set; but
if any row still holds the edited slug — in particular on a name-only
rename that keeps the original slug — the split's INSERT raises an
uncaught `IntegrityError` and the request fails: no split occurs. -/
theorem C2_rename_split (f : String → String) (s : Store) (tg : Tag)
    (newName newSlug : String) (user_sites new_sites : List Nat) (fuel : Nat)
    (hw : s.wf) (htg : tg ∈ s.tags)
    (hnd : new_sites.Nodup) (hns : new_sites ≠ []) (hlive : tg.sites ≠ []) :
    ((∀ x ∈ tg.sites, x ∈ new_sites) →
      (∀ t ∈ s.tags, t.pk ≠ tg.pk → t.slug ≠ newSlug) →
      adminRenameTag f s tg.pk newName newSlug user_sites new_sites fuel =
        some { s with tags := s.tags.map (fun t => if t.pk == tg.pk then
            { t with name := newName, nspace := computeNamespace newName,
                     slug := newSlug,
                     sites := t.sites ++
                       new_sites.filter (fun x => !t.sites.contains x) }
          else t) }) ∧
    ((∀ x ∈ tg.sites, x ∈ new_sites) →
      (∃ t ∈ s.tags, t.pk ≠ tg.pk ∧ t.slug = newSlug) →
      adminRenameTag f s tg.pk newName newSlug user_sites new_sites fuel =
        none) ∧
    ((¬∀ x ∈ tg.sites, x ∈ new_sites) →
      (newName == tg.name && newSlug == tg.slug) = false →
      newSlug ≠ "" →
      (∀ t ∈ s.tags, t.slug ≠ newSlug) →
      ∃ s2, adminRenameTag f s tg.pk newName newSlug user_sites new_sites
          fuel = some s2 ∧
        s2.tags = s.tags.map (fun t => if t.pk == tg.pk then
            { t with
              sites := t.sites.filter (fun x => !new_sites.contains x) }
          else t) ++
          [⟨s.nextPk, newName, computeNamespace newName, newSlug,
            new_sites⟩] ∧
        s2.objects = s.objects ∧ s2.nextPk = s.nextPk + 1) ∧
    ((¬∀ x ∈ tg.sites, x ∈ new_sites) →
      (newName == tg.name && newSlug == tg.slug) = false →
      newSlug ≠ "" →
      (∃ t ∈ s.tags, t.slug = newSlug) →
      adminRenameTag f s tg.pk newName newSlug user_sites new_sites fuel =
        none) := by
  obtain ⟨hpk, hslugs, hitems, hlt, hlti, hobjw⟩ := hw
  refine ⟨?_, ?_, ?_, ?_⟩
  · intro hcov hfresh
    have hcovb : (tg.sites.all fun st => new_sites.contains st) = true := by
      rw [List.all_eq_true]
      intro st hst
      simpa using hcov st hst
    have hform : save_form f s ⟨some tg.pk, newName, newSlug⟩ new_sites fuel =
        .deferred ⟨some tg.pk, newName, newSlug⟩ s := by
      unfold save_form
      dsimp only
      rw [find?_pk_eq hpk htg rfl]
      dsimp only
      by_cases hc : (newName == tg.name && newSlug == tg.slug) = true
      · rw [if_pos hc]
      · rw [if_neg hc, if_pos hcovb]
    have hcol : s.tags.any (fun t2 => t2.slug == newSlug && t2.pk != tg.pk) =
        false := by
      rw [List.any_eq_false]
      intro t2 ht2
      by_cases hp : t2.pk = tg.pk
      · simp [hp]
      · simp [hfresh t2 ht2 hp]
    have hplain : saveT f s ⟨some tg.pk, newName, newSlug⟩ fuel =
        .ok { s with tags := s.tags.map (fun x => if x.pk == tg.pk then
                { x with name := newName, nspace := computeNamespace newName,
                         slug := newSlug } else x) }
            { tg with name := newName, nspace := computeNamespace newName,
                      slug := newSlug } := by
      unfold saveT
      rw [if_neg (by simp)]
      unfold savePlain
      dsimp only
      rw [find?_pk_eq hpk htg rfl]
      dsimp only
      rw [if_neg (by simp [hcol])]
    show adminSaveTag f s ⟨some tg.pk, newName, newSlug⟩ user_sites new_sites
        true fuel = _
    rw [adminSaveTag_deferred hform hplain user_sites true]
    have hpk1 : ((s.tags.map (fun x => if x.pk == tg.pk then
        { x with name := newName, nspace := computeNamespace newName,
                 slug := newSlug } else x)).map Tag.pk).Nodup := by
      rw [map_pk_updRow
        (fun x => { x with name := newName, nspace := computeNamespace newName,
                           slug := newSlug }) tg.pk (fun t => rfl) s.tags]
      exact hpk
    have htg1 :
        ({ tg with name := newName, nspace := computeNamespace newName,
                   slug := newSlug } : Tag) ∈
        s.tags.map (fun x => if x.pk == tg.pk then
          { x with name := newName, nspace := computeNamespace newName,
                   slug := newSlug } else x) := by
      have := List.mem_map_of_mem (fun x => if x.pk == tg.pk then
        ({ x with name := newName, nspace := computeNamespace newName,
                  slug := newSlug } : Tag) else x) htg
      simpa using this
    have hrel := save_related_union
      { s with tags := s.tags.map (fun x => if x.pk == tg.pk then
          { x with name := newName, nspace := computeNamespace newName,
                   slug := newSlug } else x) }
      ({ tg with name := newName, nspace := computeNamespace newName,
                 slug := newSlug } : Tag)
      user_sites new_sites true hpk1 htg1 hnd
      (fun x hx _ => by simpa using hcov x hx)
      (fun h => hlive (List.append_eq_nil.mp h).1)
    rw [hrel]
    have htags : (s.tags.map (fun x => if x.pk == tg.pk then
        { x with name := newName, nspace := computeNamespace newName,
                 slug := newSlug } else x)).map
        (fun t => if t.pk ==
            ({ tg with name := newName, nspace := computeNamespace newName,
                       slug := newSlug } : Tag).pk then
          { t with sites := t.sites ++
              new_sites.filter (fun x => !t.sites.contains x) } else t) =
        s.tags.map (fun t => if t.pk == tg.pk then
          { t with name := newName, nspace := computeNamespace newName,
                   slug := newSlug,
                   sites := t.sites ++
                     new_sites.filter (fun x => !t.sites.contains x) }
          else t) := by
      rw [List.map_map]
      apply List.map_congr_left
      intro t ht
      simp only [Function.comp_apply]
      by_cases h : (t.pk == tg.pk) = true <;> simp [h]
    rw [show ({ s with tags := s.tags.map (fun x => if x.pk == tg.pk then
        { x with name := newName, nspace := computeNamespace newName,
                 slug := newSlug } else x) } : Store).tags =
      s.tags.map (fun x => if x.pk == tg.pk then
        { x with name := newName, nspace := computeNamespace newName,
                 slug := newSlug } else x) from rfl, htags]
  · intro hcov hcollide
    have hcovb : (tg.sites.all fun st => new_sites.contains st) = true := by
      rw [List.all_eq_true]
      intro st hst
      simpa using hcov st hst
    have hform : save_form f s ⟨some tg.pk, newName, newSlug⟩ new_sites fuel =
        .deferred ⟨some tg.pk, newName, newSlug⟩ s := by
      unfold save_form
      dsimp only
      rw [find?_pk_eq hpk htg rfl]
      dsimp only
      by_cases hc : (newName == tg.name && newSlug == tg.slug) = true
      · rw [if_pos hc]
      · rw [if_neg hc, if_pos hcovb]
    have hcolT : s.tags.any (fun t2 => t2.slug == newSlug && t2.pk != tg.pk) =
        true := by
      rw [List.any_eq_true]
      obtain ⟨t, ht, hpne, hts⟩ := hcollide
      exact ⟨t, ht, by simp [hts, hpne]⟩
    have hplainE : saveT f s ⟨some tg.pk, newName, newSlug⟩ fuel =
        .integrityError := by
      unfold saveT
      rw [if_neg (by simp)]
      unfold savePlain
      dsimp only
      rw [find?_pk_eq hpk htg rfl]
      dsimp only
      rw [if_pos hcolT]
    show adminSaveTag f s ⟨some tg.pk, newName, newSlug⟩ user_sites new_sites
        true fuel = none
    unfold adminSaveTag
    rw [hform]
    dsimp only
    rw [hplainE]
  · intro hnotcov hch hslugne hfresh
    have hncb : (tg.sites.all fun st => new_sites.contains st) = false := by
      cases hres : tg.sites.all fun st => new_sites.contains st
      · rfl
      · exfalso
        apply hnotcov
        intro x hx
        have := List.all_eq_true.mp hres x hx
        simpa using this
    have hmain := split_pipeline f s tg newName newSlug user_sites new_sites
      fuel ⟨hpk, hslugs, hitems, hlt, hlti, hobjw⟩ htg hch hncb hslugne hfresh
      hnd hns
    exact ⟨_, hmain,
      (splitSweep_frame _ tg.pk s.nextPk new_sites).1,
      (splitSweep_frame _ tg.pk s.nextPk new_sites).2.1,
      (splitSweep_frame _ tg.pk s.nextPk new_sites).2.2⟩
  · intro hnotcov hch hslugne htaken
    have hncb : (tg.sites.all fun st => new_sites.contains st) = false := by
      cases hres : tg.sites.all fun st => new_sites.contains st
      · rfl
      · exfalso
        apply hnotcov
        intro x hx
        have := List.all_eq_true.mp hres x hx
        simpa using this
    have htakenb : slugTaken s.tags newSlug = true := by
      rw [slugTaken, List.any_eq_true]
      obtain ⟨t, ht, hts⟩ := htaken
      exact ⟨t, ht, by simp [hts]⟩
    have hplainE : saveT f s ⟨none, newName, newSlug⟩ fuel =
        .integrityError := by
      unfold saveT
      rw [if_neg (by simp [hslugne])]
      unfold savePlain
      dsimp only
      rw [if_pos htakenb]
    have hform : save_form f s ⟨some tg.pk, newName, newSlug⟩ new_sites fuel =
        .error := by
      unfold save_form
      dsimp only
      rw [find?_pk_eq hpk htg rfl]
      dsimp only
      rw [if_neg (by rw [hch]; simp), if_neg (by rw [hncb]; simp), hplainE]
    show adminSaveTag f s ⟨some tg.pk, newName, newSlug⟩ user_sites new_sites
        true fuel = none
    unfold adminSaveTag
    rw [hform]

/-- Witness for C2 amended: the covering variant of the name-only rename —
"news" on {1, 2} renamed to "headlines" for both of its sites, slug kept —
succeeds in place: the same row (pk 0) carries the new name, the kept slug
and the same sites, and no new row appears. -/
theorem C2_rename_split_witness :
    (Store.wf ⟨[⟨0, "news", "", "news", [1, 2]⟩], [], [], 1⟩ ∧
      (∀ x ∈ ([1, 2] : List Nat), x ∈ ([1, 2] : List Nat)) ∧
      (∀ t ∈ [(⟨0, "news", "", "news", [1, 2]⟩ : Tag)], t.pk ≠ 0 →
        t.slug ≠ "news")) ∧
    adminRenameTag (fun x => x) ⟨[⟨0, "news", "", "news", [1, 2]⟩], [], [], 1⟩
        0 "headlines" "news" [1, 2] [1, 2] 1 =
      some ⟨[⟨0, "headlines", "", "news", [1, 2]⟩], [], [], 1⟩ :=
  ⟨⟨by decide, by decide, by decide⟩,
    ((C2_rename_split (fun x => x)
        ⟨[⟨0, "news", "", "news", [1, 2]⟩], [], [], 1⟩
        ⟨0, "news", "", "news", [1, 2]⟩ "headlines" "news" [1, 2] [1, 2] 1
        (by decide) (by decide) (by decide) (by decide) (by decide)).1
      (by decide) (by decide)).trans (by decide)⟩

/-! ### C3 — the split's item sweep -/

/-- C3 as stated is false at this input: "news" lives on sites {1, 2} and is
renamed to "headlines" for site 1 only, so the original tag's reduced site
set is {2}; the tagged object lives on site 3 only — zero remaining overlap
with {2} — yet the original association survives the split untouched: the
code keys the deletion on the object's sites being contained in the
*edited* set {1}, not on overlap with the reduced set. -/
theorem C3_counterexample :
    adminRenameTag (fun x => x)
        ⟨[⟨0, "news", "", "news", [1, 2]⟩], [⟨0, 0, 7⟩], [⟨0, 7, some [3]⟩], 1⟩
        0 "headlines" "headlines" [1] [1] 1 =
      some ⟨[⟨0, "news", "", "news", [2]⟩,
             ⟨1, "headlines", "", "headlines", [1]⟩],
            [⟨0, 0, 7⟩], [⟨0, 7, some [3]⟩], 2⟩ ∧
    ([3] : List Nat).filter (fun x => ([2] : List Nat).contains x) = [] := by
  decide

/-- C3 amended: during a split, for every existing association of the
original tag whose object resolves and exposes a site list, an association
with the new tag is present afterwards exactly when the object's sites
overlap the edited site set; the original association survives exactly when
the object has a site *outside the edited set* — i.e. it is deleted iff the
object's sites are contained in the edited (new tag's) set, not iff the
overlap with the original tag's reduced set is empty. -/
theorem C3_split_assoc (f : String → String) (s : Store) (tg : Tag)
    (newName newSlug : String) (user_sites new_sites : List Nat) (fuel : Nat)
    (hw : s.wf) (htg : tg ∈ s.tags)
    (hch : (newName == tg.name && newSlug == tg.slug) = false)
    (hnotcov : ¬∀ x ∈ tg.sites, x ∈ new_sites)
    (hslugne : newSlug ≠ "")
    (hfresh : ∀ t ∈ s.tags, t.slug ≠ newSlug)
    (hnd : new_sites.Nodup) (hns : new_sites ≠ []) :
    ∃ s2, adminRenameTag f s tg.pk newName newSlug user_sites new_sites fuel =
        some s2 ∧
      ∀ it ∈ s.items, it.tag_pk = tg.pk →
        ∀ obj, objLookup s.objects it.ctype it.object_id = some obj →
        ∀ osites, obj.sites = some osites →
          ((it ∈ s2.items ↔ ∃ x ∈ osites, x ∉ new_sites) ∧
           ((⟨s.nextPk, it.ctype, it.object_id⟩ : TaggedItem) ∈ s2.items ↔
             ∃ x ∈ osites, x ∈ new_sites)) := by
  obtain ⟨hpk, hslugs, hitems, hlt, hlti, hobjw⟩ := hw
  have hncb : (tg.sites.all fun st => new_sites.contains st) = false := by
    cases hres : tg.sites.all fun st => new_sites.contains st
    · rfl
    · exfalso
      apply hnotcov
      intro x hx
      have := List.all_eq_true.mp hres x hx
      simpa using this
  have hmain := split_pipeline f s tg newName newSlug user_sites new_sites
    fuel ⟨hpk, hslugs, hitems, hlt, hlti, hobjw⟩ htg hch hncb hslugne hfresh
    hnd hns
  refine ⟨_, hmain, ?_⟩
  intro it hit hitpk obj hobj osites hosites
  have hitne : it.tag_pk ≠ s.nextPk := by
    have := hlti it hit
    omega
  have hmemsnap : it ∈ s.items.filter (fun j => j.tag_pk == tg.pk) :=
    List.mem_filter.mpr ⟨hit, by simp [hitpk]⟩
  have hsnapnd : (s.items.filter (fun j => j.tag_pk == tg.pk)).Nodup :=
    hitems.filter _
  have hpksnap : ∀ j ∈ s.items.filter (fun j => j.tag_pk == tg.pk),
      j.tag_pk ≠ s.nextPk := by
    intro j hj
    have := hlti j (List.mem_filter.mp hj).1
    omega
  constructor
  · have h1 : it ∈ (splitSweep
        { s with
            tags := s.tags.map (fun t => if t.pk == tg.pk then
                { t with
                  sites := t.sites.filter (fun x => !new_sites.contains x) }
              else t) ++
              [⟨s.nextPk, newName, computeNamespace newName, newSlug,
                new_sites⟩],
            nextPk := s.nextPk + 1 }
        tg.pk s.nextPk new_sites).items ↔
        it ∈ s.items ∧
          (osites.all (fun x => new_sites.contains x)) = false :=
      splitSweep_fold_mem_self s.nextPk new_sites s.objects
        (s.items.filter (fun j => j.tag_pk == tg.pk))
        { s with
            tags := s.tags.map (fun t => if t.pk == tg.pk then
                { t with
                  sites := t.sites.filter (fun x => !new_sites.contains x) }
              else t) ++
              [⟨s.nextPk, newName, computeNamespace newName, newSlug,
                new_sites⟩],
            nextPk := s.nextPk + 1 }
        rfl hsnapnd it hmemsnap hitne obj hobj osites hosites
    rw [h1]
    simp [hit]
  · have h2 : (⟨s.nextPk, it.ctype, it.object_id⟩ : TaggedItem) ∈ (splitSweep
        { s with
            tags := s.tags.map (fun t => if t.pk == tg.pk then
                { t with
                  sites := t.sites.filter (fun x => !new_sites.contains x) }
              else t) ++
              [⟨s.nextPk, newName, computeNamespace newName, newSlug,
                new_sites⟩],
            nextPk := s.nextPk + 1 }
        tg.pk s.nextPk new_sites).items ↔
        (⟨s.nextPk, it.ctype, it.object_id⟩ : TaggedItem) ∈ s.items ∨
          ∃ j ∈ s.items.filter (fun j => j.tag_pk == tg.pk),
            j.ctype = it.ctype ∧ j.object_id = it.object_id ∧
            ∃ obj2, objLookup s.objects it.ctype it.object_id = some obj2 ∧
              ∃ osites2, obj2.sites = some osites2 ∧
                (osites2.any (fun x => new_sites.contains x)) = true :=
      splitSweep_fold_mem_new s.nextPk new_sites s.objects it.ctype
        it.object_id (s.items.filter (fun j => j.tag_pk == tg.pk))
        { s with
            tags := s.tags.map (fun t => if t.pk == tg.pk then
                { t with
                  sites := t.sites.filter (fun x => !new_sites.contains x) }
              else t) ++
              [⟨s.nextPk, newName, computeNamespace newName, newSlug,
                new_sites⟩],
            nextPk := s.nextPk + 1 }
        rfl hpksnap
    have hnotmem : (⟨s.nextPk, it.ctype, it.object_id⟩ : TaggedItem) ∉
        s.items := by
      intro hc
      have := hlti _ hc
      simp at this
    rw [h2]
    constructor
    · rintro (h | ⟨j, hj, hc1, hc2, obj2, hobj2, osites2, hsit2, hany⟩)
      · exact absurd h hnotmem
      · rw [hobj] at hobj2
        have hoo := Option.some.inj hobj2
        subst hoo
        rw [hosites] at hsit2
        have hss := Option.some.inj hsit2
        subst hss
        simpa using hany
    · rintro ⟨x, hx, hxn⟩
      refine Or.inr ⟨it, hmemsnap, rfl, rfl, obj, hobj, osites, hosites, ?_⟩
      rw [List.any_eq_true]
      exact ⟨x, hx, by simpa using hxn⟩

/-- Witness for C3 amended: object on sites {1, 2}, tag "news" on {1, 2}
renamed to "headlines" for site 1: the object overlaps the edited set, so
the new association exists; it also has site 2 outside the edited set, so
the original association survives. -/
theorem C3_split_assoc_witness :
    (Store.wf ⟨[⟨0, "news", "", "news", [1, 2]⟩], [⟨0, 0, 7⟩],
        [⟨0, 7, some [1, 2]⟩], 1⟩ ∧
      (¬∀ x ∈ ([1, 2] : List Nat), x ∈ ([1] : List Nat))) ∧
    (∃ s2, adminRenameTag (fun x => x)
        ⟨[⟨0, "news", "", "news", [1, 2]⟩], [⟨0, 0, 7⟩],
          [⟨0, 7, some [1, 2]⟩], 1⟩ 0 "headlines" "headlines" [1] [1] 1 =
        some s2 ∧
      ∀ it ∈ [(⟨0, 0, 7⟩ : TaggedItem)], it.tag_pk = 0 →
        ∀ obj, objLookup [⟨0, 7, some [1, 2]⟩] it.ctype it.object_id =
          some obj →
        ∀ osites, obj.sites = some osites →
          ((it ∈ s2.items ↔ ∃ x ∈ osites, x ∉ ([1] : List Nat)) ∧
           ((⟨1, it.ctype, it.object_id⟩ : TaggedItem) ∈ s2.items ↔
             ∃ x ∈ osites, x ∈ ([1] : List Nat)))) :=
  ⟨⟨by decide, by decide⟩,
    C3_split_assoc (fun x => x)
      ⟨[⟨0, "news", "", "news", [1, 2]⟩], [⟨0, 0, 7⟩],
        [⟨0, 7, some [1, 2]⟩], 1⟩
      ⟨0, "news", "", "news", [1, 2]⟩ "headlines" "headlines" [1] [1] 1
      (by decide) (by decide) (by decide) (by decide) (by decide) (by decide)
      (by decide) (by decide)⟩

end Taggit
